import Mathlib

set_option maxRecDepth 8000

/-!
Verification of the DM-HUD state manager (src/scripts/state/state-manager.js)
against its natural-language specification.

The JavaScript runtime data manipulated by the store is modelled by the
inductive type `JVal`.  Scope of the embedding:

* JS numbers are modelled as integers; the repository only ever stores
  integral numbers and no claim depends on floating-point behaviour.
* Property access is modelled on own properties of plain objects and
  arrays (including array `length` and canonical index keys, and
  "expando" string properties on arrays).  Properties inherited from
  prototypes (`toString`, string `length`/index characters, ...) are
  outside the JSON data model the store works with and are not modelled:
  reading such a key on a primitive yields `undefined` here.
* `undefined` is an explicit value `JVal.undefined`; a JS `TypeError`
  (reading or writing a property of `undefined`/`null`, calling an array
  method on a non-array) is modelled by `Option.none` in the functions
  that can raise it.  The code is not in strict mode, so assigning a
  property to a primitive is a silent no-op, which is modelled directly.
* Strict equality `===` on two distinct object references is `false`;
  every comparison performed by the store compares a fresh deep clone
  against a caller value, so object-object comparisons are never
  reference-equal and `jStrictEq` soundly returns `false` for them.
-/

namespace DmHud

/-- JavaScript values handled by the state manager.  Arrays carry their
element list plus their non-index ("expando") string properties; sparse
holes are `undefined` elements. -/
inductive JVal where
  | undefined : JVal
  | null : JVal
  | bool (b : Bool) : JVal
  | num (n : Int) : JVal
  | str (s : String) : JVal
  | arr (elems : List JVal) (props : List (String × JVal)) : JVal
  | obj (fields : List (String × JVal)) : JVal

/-- JS truthiness (`NaN` does not arise in the integral model). -/
def truthy : JVal → Bool
  | .undefined => false
  | .null => false
  | .bool b => b
  | .num n => n != 0
  | .str s => !s.data.isEmpty
  | .arr _ _ => true
  | .obj _ => true

def isContainer : JVal → Bool
  | .arr _ _ => true
  | .obj _ => true
  | _ => false

def isNullish : JVal → Bool
  | .undefined => true
  | .null => true
  | _ => false

/-- The `isObject` helper nested in `_deepMerge`: truthy, `typeof`
`object`, and not an array — i.e. exactly a plain object. -/
def isObjectJS : JVal → Bool
  | .obj _ => true
  | _ => false

def isPrimValue : JVal → Bool
  | .undefined => true
  | .null => true
  | .bool _ => true
  | .num _ => true
  | .str _ => true
  | _ => false

/-- First binding of a key in an object field list. -/
def findField : List (String × JVal) → String → Option JVal
  | [], _ => none
  | (k', v) :: rest, k => if k' = k then some v else findField rest k

def hasKeyB (fs : List (String × JVal)) (k : String) : Bool :=
  (findField fs k).isSome

/-- Assignment to a key of an object: overwrite in place or append
(matching JS property-creation order). -/
def objInsert : List (String × JVal) → String → JVal → List (String × JVal)
  | [], k, v => [(k, v)]
  | (k', v') :: rest, k, v =>
      if k' = k then (k, v) :: rest else (k', v') :: objInsert rest k v

/-- Canonical array index: the key is the decimal rendering of a natural
number without leading zeros (JS array index semantics; the 2^32-1 upper
bound is irrelevant at the sizes that occur here). -/
def canonIdx (k : String) : Option Nat :=
  match k.data with
  | [] => none
  | c :: cs =>
      if (c :: cs).all Char.isDigit && (c ≠ '0' || cs.isEmpty) then
        some ((c :: cs).foldl (fun n ch => n * 10 + (ch.toNat - '0'.toNat)) 0)
      else none

/-- Own-property read `v[k]`.  On `undefined`/`null` JS would throw; every
call site in the embedding is either guarded by a truthiness test (as in
the source) or handles those cases separately, so `undefined` is returned
here. -/
def getProp (v : JVal) (k : String) : JVal :=
  match v with
  | .obj fs => (findField fs k).getD .undefined
  | .arr es ps =>
      if k = "length" then .num es.length
      else
        match canonIdx k with
        | some i => es.getD i .undefined
        | none => (findField ps k).getD .undefined
  | _ => .undefined

/-- Pad/truncate an element list to length `n` (JS `length` assignment). -/
def setLen (es : List JVal) (n : Nat) : List JVal :=
  if n ≤ es.length then es.take n
  else es ++ List.replicate (n - es.length) .undefined

/-- Property assignment `v[k] = x`.  Objects insert/overwrite; arrays
handle `length`, canonical indexes (out-of-range writes create a sparse
tail of holes) and expando properties; on primitives sloppy-mode
assignment is a silent no-op.  Assigning a non-numeric `length` raises
`RangeError` in JS; it is modelled as a no-op and kept unreachable in
the theorems below. -/
def setProp (v : JVal) (k : String) (x : JVal) : JVal :=
  match v with
  | .obj fs => .obj (objInsert fs k x)
  | .arr es ps =>
      if k = "length" then
        match x with
        | .num n => if n < 0 then .arr es ps else .arr (setLen es n.toNat) ps
        | _ => .arr es ps
      else
        match canonIdx k with
        | some i =>
            if i < es.length then .arr (es.set i x) ps
            else .arr (es ++ List.replicate (i - es.length) .undefined ++ [x]) ps
        | none => .arr es (objInsert ps k x)
  | _ => v

/-- Strict equality `===` as used by the store: primitives compare by
value; a comparison involving an object or array compares references,
and the store always compares a freshly cloned value against a caller
value, so those are never equal. -/
def jStrictEq : JVal → JVal → Bool
  | .undefined, .undefined => true
  | .null, .null => true
  | .bool a, .bool b => a == b
  | .num a, .num b => a == b
  | .str a, .str b => a == b
  | _, _ => false

/-! ## JSON-safety and `JSON.parse(JSON.stringify(...))` cloning -/

mutual
/-- JSON-safe data: no `undefined` anywhere and no expando properties on
arrays — exactly the values that survive a stringify/parse round trip
unchanged. -/
def jsonSafe : JVal → Bool
  | .undefined => false
  | .null => true
  | .bool _ => true
  | .num _ => true
  | .str _ => true
  | .arr es ps => ps.isEmpty && jsonSafeList es
  | .obj fs => jsonSafeFields fs

def jsonSafeList : List JVal → Bool
  | [] => true
  | e :: es => jsonSafe e && jsonSafeList es

def jsonSafeFields : List (String × JVal) → Bool
  | [] => true
  | (_, v) :: fs => jsonSafe v && jsonSafeFields fs
end

mutual
/-- Deep clone by `JSON.parse(JSON.stringify(v))`: drops
`undefined`-valued object fields, turns array holes into `null`, drops
array expando properties. -/
def jsonClone : JVal → JVal
  | .undefined => .undefined
  | .null => .null
  | .bool b => .bool b
  | .num n => .num n
  | .str s => .str s
  | .arr es _ => .arr (cloneElems es) []
  | .obj fs => .obj (cloneFields fs)

def cloneElems : List JVal → List JVal
  | [] => []
  | e :: es =>
      (match e with
       | .undefined => .null
       | _ => jsonClone e) :: cloneElems es

def cloneFields : List (String × JVal) → List (String × JVal)
  | [] => []
  | (k, v) :: fs =>
      match v with
      | .undefined => cloneFields fs
      | _ => (k, jsonClone v) :: cloneFields fs
end

/-! ## Path utility (`_getNestedValue` / `_setNestedValue`) -/

/-- Accumulator loop for `splitPath`. -/
def splitAux : List Char → List Char → List String
  | [], acc => [String.mk acc.reverse]
  | c :: cs, acc =>
      if c = '.' then String.mk acc.reverse :: splitAux cs []
      else splitAux cs (c :: acc)

/-- JS `path.split('.')` with a one-character separator: cut at every
dot; the empty string splits to `[""]`. -/
def splitPath (path : String) : List String :=
  splitAux path.data []

/-- One step of `_getNestedValue`'s reduce:
`prev && prev[curr] !== undefined ? prev[curr] : undefined`.
When `prev` is truthy this equals `prev[curr]` (the `undefined` test is
the identity on `undefined`), otherwise `undefined`. -/
def getStep (prev : JVal) (curr : String) : JVal :=
  if truthy prev then getProp prev curr else .undefined

/-- `_getNestedValue(obj, path)`: split on `.`, reduce from `obj`. -/
def getNestedValue (o : JVal) (path : String) : JVal :=
  (splitPath path).foldl getStep o

/-- The walk-and-assign loop of `_setNestedValue`, after the deep clone:
navigate the remaining segments, creating `{}` at falsy slots, then
assign the leaf.  `none` models the JS `TypeError`s (reading or setting
a property of `undefined`/`null`); on other primitives writes are silent
no-ops and the primitive is returned unchanged. -/
def setWalk : JVal → List String → JVal → Option JVal
  | cur, [], _ => some cur
  | cur, k :: rest, x =>
      if isNullish cur then none
      else if isContainer cur then
        match rest with
        | [] => some (setProp cur k x)
        | _ :: _ =>
            let child := getProp cur k
            (setWalk (if truthy child then child else .obj []) rest x).map
              (setProp cur k)
      else
        match rest with
        | [] => some cur
        | _ :: _ => (setWalk .undefined rest x).map (fun _ => cur)

/-- `_setNestedValue(obj, path, value)`: deep-clone, then walk/assign. -/
def setNestedValue (o : JVal) (path : String) (value : JVal) : Option JVal :=
  setWalk (jsonClone o) (splitPath path) value

/-! ## State container (`StateManager`) -/

/-- `_getState(path)`: `if (!path)` (an empty path string, since `path`
is a string here) returns a deep copy of the whole document; otherwise a
deep copy of the value at `path`, or `undefined` when the path resolves
to `undefined`. -/
def getStateAt (st : JVal) (path : String) : JVal :=
  if path.data.isEmpty then jsonClone st
  else
    match getNestedValue st path with
    | .undefined => .undefined
    | v => jsonClone v

/-- The shared tail of `_setState`: install the new document produced by
`_setNestedValue`, then `_state.ui.lastSaved = <now>`.  The throttled
save and the subscriber notification do not change the document.  `none`
models the `TypeError` thrown when `_state.ui` is `undefined`/`null`;
when `_state.ui` is a non-container primitive the assignment is a
sloppy-mode no-op. -/
def setStateCore (st : JVal) (path : String) (value : JVal) (now : String) :
    Option JVal :=
  (setNestedValue st path value).bind fun st1 =>
    let u := getProp st1 "ui"
    if isNullish u then none
    else if isContainer u then
      some (setProp st1 "ui" (setProp u "lastSaved" (.str now)))
    else some st1

/-- `{ ...acc, ...v }`-style spread of the own enumerable properties of
`v` into an accumulated field list: objects contribute their fields,
arrays their non-hole indexed elements then expando properties, strings
their characters; other primitives contribute nothing. -/
def spreadFields (acc : List (String × JVal)) (v : JVal) : List (String × JVal) :=
  match v with
  | .obj fs => fs.foldl (fun a kv => objInsert a kv.1 kv.2) acc
  | .arr es ps =>
      ((es.enum.filterMap fun p =>
          match p.2 with
          | .undefined => none
          | e => some (toString p.1, e)) ++ ps).foldl
        (fun a kv => objInsert a kv.1 kv.2) acc
  | .str s =>
      (s.data.enum.map fun p => (toString p.1, JVal.str (String.mk [p.2]))).foldl
        (fun a kv => objInsert a kv.1 kv.2) acc
  | _ => acc

/-- `_addItem(arrayPath, item)`.  `genId` stands for the
`_generateId()` result (a base-36 timestamp plus random suffix — an
oracle input to the model), `now` for the `_setState` timestamp.  `none`
models the `TypeError` of spreading a non-iterable truthy value. -/
def addItem (st : JVal) (arrayPath : String) (item : JVal) (genId : String)
    (now : String) : Option (JVal × JVal) :=
  let item1 := if truthy (getProp item "id") then item
               else setProp item "id" (.str genId)
  let v := getStateAt st arrayPath
  let array := if truthy v then v else .arr [] []
  match array with
  | .arr es _ =>
      (setStateCore st arrayPath (.arr (es ++ [item1]) []) now).map
        fun st2 => (st2, getProp item1 "id")
  | .str s =>
      (setStateCore st arrayPath
          (.arr ((s.data.map fun c => JVal.str (String.mk [c])) ++ [item1]) [])
          now).map
        fun st2 => (st2, getProp item1 "id")
  | _ => none

/-- `_updateItem(arrayPath, itemId, updates)`.  `none` models the
`TypeError` of calling `findIndex` on a truthy non-array. -/
def updateItem (st : JVal) (arrayPath : String) (itemId : JVal)
    (updates : JVal) (now : String) : Option (JVal × Bool) :=
  let v := getStateAt st arrayPath
  let array := if truthy v then v else .arr [] []
  match array with
  | .arr es _ =>
      match List.findIdx? (fun item => jStrictEq (getProp item "id") itemId) es with
      | none => some (st, false)
      | some i =>
          let updatedItem : JVal :=
            .obj (spreadFields (spreadFields [] (es.getD i .undefined)) updates)
          let newEs := es.take i ++ [updatedItem] ++ es.drop (i + 1)
          (setStateCore st arrayPath (.arr newEs []) now).map
            fun st2 => (st2, true)
  | _ => none

/-- `_removeItem(arrayPath, itemId)`.  `none` models the `TypeError` of
calling `filter` on a truthy non-array. -/
def removeItem (st : JVal) (arrayPath : String) (itemId : JVal)
    (now : String) : Option (JVal × Bool) :=
  let v := getStateAt st arrayPath
  let array := if truthy v then v else .arr [] []
  match array with
  | .arr es _ =>
      let newEs := es.filter fun item => !jStrictEq (getProp item "id") itemId
      if newEs.length = es.length then some (st, false)
      else
        (setStateCore st arrayPath (.arr newEs []) now).map
          fun st2 => (st2, true)
  | _ => none

/-! ## `_deepMerge` and the operations built on it -/

mutual
/-- `_deepMerge(target, source)`: start from `Object.assign({}, target)`
(for the object inputs that actually occur this is just the field list
of `target`), then for each source key: recurse when the source value is
a plain object and the key exists in `target`, otherwise the source
value (or, for a fresh plain-object value, that object) wins. -/
def deepMerge (target source : JVal) : JVal :=
  match target, source with
  | .obj tfs, .obj sfs => .obj (mergeFields tfs tfs sfs)
  | t, _ => .obj (spreadFields [] t)

/-- The `Object.keys(source).forEach` loop of `_deepMerge`, threading
the `output` accumulator. -/
def mergeFields (tfs acc : List (String × JVal)) :
    List (String × JVal) → List (String × JVal)
  | [] => acc
  | (k, sv) :: rest =>
      mergeFields tfs
        (objInsert acc k
          (if isObjectJS sv then
            if hasKeyB tfs k then deepMerge ((findField tfs k).getD .undefined) sv
            else sv
          else sv))
        rest
end

/-- `_importState(jsonState)`.  `JSON.parse` is the host parser,
abstracted as the `Option JVal` argument (`none` = the string does not
parse; `some v` = it parses to `v`).  On success the document becomes
the deep merge; `_forceSave` and `_notifySubscribers` do not change it.
On parse failure the `catch` returns `false` with the document
untouched. -/
def stateImport (st : JVal) (parsed : Option JVal) : JVal × Bool :=
  match parsed with
  | none => (st, false)
  | some newState => (deepMerge st newState, true)

/-! ## Default state skeleton and `_loadFromStorage` -/

/-- The `_state` initializer (state-manager.js lines 23-81). -/
def defaultFields : List (String × JVal) :=
    [("ui", .obj
        [("activeTab", .str "story"),
         ("focusMode", .bool false),
         ("lastSaved", .null),
         ("sidebarCollapsed", .bool false),
         ("theme", .str "dark"),
         ("panelSizes", .obj
            [("story", .obj
                [("threadList", .num 25), ("beatDisplay", .num 50),
                 ("relationshipMap", .num 25)]),
             ("characters", .obj
                [("characterList", .num 25), ("npcList", .num 25),
                 ("characterDetail", .num 50)]),
             ("combat", .obj
                [("combatControls", .num 20), ("initiativeList", .num 30),
                 ("combatDetail", .num 50)])])]),
     ("story", .obj
        [("campaign", .obj
            [("id", .str ""), ("name", .str ""), ("description", .str ""),
             ("setting", .str ""), ("currentSession", .num 1)]),
         ("plotThreads", .arr [] []),
         ("storyBeats", .arr [] []),
         ("locations", .arr [] []),
         ("notes", .arr [] [])]),
     ("characters", .obj
        [("playerCharacters", .arr [] []),
         ("npcs", .arr [] []),
         ("factions", .arr [] []),
         ("relationships", .arr [] [])]),
     ("combat", .obj
        [("inCombat", .bool false),
         ("currentEncounter", .null),
         ("initiative", .arr [] []),
         ("round", .num 0),
         ("activeIndex", .num (-1)),
         ("encounters", .arr [] []),
         ("conditions", .arr [] [])]),
     ("settings", .obj
        [("autosaveInterval", .num 60),
         ("confirmBeforeDelete", .bool true),
         ("showHiddenInfo", .bool false),
         ("diceRollerEnabled", .bool true),
         ("soundEffectsEnabled", .bool false),
         ("notificationsEnabled", .bool true)])]

def defaultState : JVal := .obj defaultFields

/-- `_loadFromStorage` at startup, when `_state` still holds the default
skeleton: the stored blob (`none` = absent or unparsable, both caught)
is deep-merged over the default state; the `Bool` is the returned
load-success flag. -/
def loadState (saved : Option JVal) : JVal × Bool :=
  match saved with
  | none => (defaultState, false)
  | some parsed => (deepMerge defaultState parsed, true)

/-! ## Notification fan-out (`_notifySubscribers`) -/

/-- A subscriber callback, abstracted to its observable behaviour on one
call: it either returns normally or throws the given error message.
(Reentrant mutation of the store from inside a callback is outside the
scope of the claims.) -/
def Callback : Type := String → JVal → Except String Unit

/-- The `_subscribers.forEach` loop of `_notifySubscribers` with its
per-callback `try/catch`: for each subscriber, in subscription order,
record the `(path, value)` pair it was invoked with, and the logged
error when it threw.  The preceding `document.dispatchEvent` of the
`stateChanged` CustomEvent does not touch the subscriber list.  Without
the `catch`, a throw would abort `forEach` and skip the remaining
subscribers; the loop below continues instead, exactly like the source. -/
def notifyRun (subs : List Callback) (path : String) (value : JVal) :
    List ((String × JVal) × Option String) :=
  match subs with
  | [] => []
  | cb :: rest =>
      (match cb path value with
       | .ok _ => ((path, value), none)
       | .error e => ((path, value), some e)) :: notifyRun rest path value

/-! ## Character Manager: `_deleteCharacter` -/

/-- `_deleteCharacter(characterId)` from the CharacterManager component:
take a state snapshot; decide PC vs NPC by `.some(pc => pc.id ===
characterId)`; remove from the matching collection; then filter the
snapshot relationships on `rel.character1Id === characterId ||
rel.character2Id === characterId` and remove each match by id.  `none`
models a thrown `TypeError` (snapshot collections not arrays). -/
def deleteCharacter (st : JVal) (characterId : JVal) (now : String) :
    Option JVal :=
  let state := jsonClone st
  match getProp (getProp state "characters") "playerCharacters" with
  | .arr pcs _ =>
      let isPC := pcs.any fun pc => jStrictEq (getProp pc "id") characterId
      (removeItem st
          (if isPC then "characters.playerCharacters" else "characters.npcs")
          characterId now).bind fun r1 =>
        match getProp (getProp state "characters") "relationships" with
        | .arr rels _ =>
            (rels.filter fun rel =>
                jStrictEq (getProp rel "character1Id") characterId ||
                jStrictEq (getProp rel "character2Id") characterId).foldl
              (fun acc rel =>
                acc.bind fun s =>
                  (removeItem s "characters.relationships" (getProp rel "id")
                      now).map Prod.fst)
              (some r1.1)
        | _ => none
  | _ => none

/-! ## Support lemmas -/

/-- Structural induction for `JVal` (the nested `List` occurrences make
the auto-generated recursor awkward to use directly). -/
def jvalIndOn {P : JVal → Prop}
    (hundefined : P .undefined) (hnull : P .null) (hbool : ∀ b, P (.bool b))
    (hnum : ∀ n, P (.num n)) (hstr : ∀ s, P (.str s))
    (harr : ∀ es ps, (∀ e ∈ es, P e) → (∀ kv ∈ ps, P kv.2) → P (.arr es ps))
    (hobj : ∀ fs, (∀ kv ∈ fs, P kv.2) → P (.obj fs)) :
    ∀ v, P v
  | .undefined => hundefined
  | .null => hnull
  | .bool b => hbool b
  | .num n => hnum n
  | .str s => hstr s
  | .arr es ps =>
      harr es ps
        (fun e he =>
          have : sizeOf e < 1 + sizeOf es + sizeOf ps := by
            have h1 := List.sizeOf_lt_of_mem he
            omega
          jvalIndOn hundefined hnull hbool hnum hstr harr hobj e)
        (fun kv hkv =>
          have : sizeOf kv.2 < 1 + sizeOf es + sizeOf ps := by
            have h1 := List.sizeOf_lt_of_mem hkv
            obtain ⟨a, b⟩ := kv
            simp only [Prod.mk.sizeOf_spec] at *
            omega
          jvalIndOn hundefined hnull hbool hnum hstr harr hobj kv.2)
  | .obj fs =>
      hobj fs
        (fun kv hkv =>
          have : sizeOf kv.2 < 1 + sizeOf fs := by
            have h1 := List.sizeOf_lt_of_mem hkv
            obtain ⟨a, b⟩ := kv
            simp only [Prod.mk.sizeOf_spec] at *
            omega
          jvalIndOn hundefined hnull hbool hnum hstr harr hobj kv.2)
termination_by v => sizeOf v
decreasing_by all_goals (simp only [JVal.arr.sizeOf_spec, JVal.obj.sizeOf_spec]; assumption)

theorem truthy_of_container {v : JVal} (h : isContainer v = true) :
    truthy v = true := by
  cases v <;> simp_all [isContainer, truthy]

theorem getProp_of_not_container {v : JVal} (h : isContainer v = false)
    (k : String) : getProp v k = .undefined := by
  cases v <;> simp_all [isContainer, getProp]

theorem getStep_of_not_truthy {v : JVal} (h : truthy v = false)
    (k : String) : getStep v k = .undefined := by
  simp [getStep, h]

theorem foldl_getStep_undefined (parts : List String) :
    parts.foldl getStep .undefined = .undefined := by
  induction parts with
  | nil => rfl
  | cons k rest ih => simpa [getStep, truthy] using ih

theorem findField_objInsert_self (fs : List (String × JVal)) (k : String)
    (x : JVal) : findField (objInsert fs k x) k = some x := by
  induction fs with
  | nil => simp [objInsert, findField]
  | cons kv rest ih =>
      obtain ⟨k', v'⟩ := kv
      by_cases hk : k' = k <;> simp [objInsert, findField, hk, ih]

theorem findField_objInsert_other (fs : List (String × JVal))
    {k k' : String} (hkk : k' ≠ k) (x : JVal) :
    findField (objInsert fs k x) k' = findField fs k' := by
  have hkk' : ¬(k = k') := fun h => hkk h.symm
  induction fs with
  | nil => simp [objInsert, findField, hkk']
  | cons kv rest ih =>
      obtain ⟨k0, v0⟩ := kv
      by_cases hk : k0 = k
      · subst hk
        simp [objInsert, findField, hkk']
      · simp [objInsert, findField, hk, ih]

theorem setProp_container {v : JVal} (h : isContainer v = true)
    (k : String) (x : JVal) : isContainer (setProp v k x) = true := by
  cases v with
  | obj fs => simp [setProp, isContainer]
  | arr es ps =>
      simp only [setProp]
      repeat' split
      all_goals rfl
  | undefined => simp [isContainer] at h
  | null => simp [isContainer] at h
  | bool b => simp [isContainer] at h
  | num n => simp [isContainer] at h
  | str s => simp [isContainer] at h

theorem setProp_obj {fs : List (String × JVal)} (k : String) (x : JVal) :
    isObjectJS (setProp (.obj fs) k x) = true := by
  simp [setProp, isObjectJS]

/-- Writing a plain (non-index, non-`length`) key of a container leaves
every other own property unchanged. -/
theorem getProp_setProp_other {v : JVal} (hc : isContainer v = true)
    {k k' : String} (hkk : k' ≠ k)
    (hidx : canonIdx k = none) (hlen : k ≠ "length") (x : JVal) :
    getProp (setProp v k x) k' = getProp v k' := by
  cases v with
  | obj fs => simp [setProp, getProp, findField_objInsert_other fs hkk]
  | arr es ps =>
      simp only [setProp, if_neg hlen, hidx]
      simp only [getProp]
      by_cases hl' : k' = "length"
      · simp [hl']
      · simp only [if_neg hl']
        cases canonIdx k' with
        | some i => rfl
        | none => simp [findField_objInsert_other ps hkk]
  | undefined => simp [isContainer] at hc
  | null => simp [isContainer] at hc
  | bool b => simp [isContainer] at hc
  | num n => simp [isContainer] at hc
  | str s => simp [isContainer] at hc

theorem getProp_setProp_self_obj (fs : List (String × JVal)) (k : String)
    (x : JVal) : getProp (setProp (.obj fs) k x) k = x := by
  simp [setProp, getProp, findField_objInsert_self]

theorem isNullish_of_container {v : JVal} (h : isContainer v = true) :
    isNullish v = false := by
  cases v <;> simp_all [isContainer, isNullish]

/-- The key is writable-and-readable on this container: any key on an
object, any non-`length` key on an array. -/
def arrKeyOk (v : JVal) (k : String) : Bool :=
  match v with
  | .arr _ _ => k != "length"
  | _ => true

theorem getProp_setProp_self {v : JVal} (hc : isContainer v = true)
    {k : String} (hko : arrKeyOk v k = true) (x : JVal) :
    getProp (setProp v k x) k = x := by
  cases v with
  | obj fs => exact getProp_setProp_self_obj fs k x
  | arr es ps =>
      have hlen : ¬k = "length" := by simpa [arrKeyOk] using hko
      simp only [setProp, if_neg hlen]
      cases hci : canonIdx k with
      | some i =>
          by_cases hi : i < es.length
          · simp only [if_pos hi, getProp, if_neg hlen, hci,
              List.getD_eq_getElem?_getD, List.getElem?_set_self hi]
            rfl
          · simp only [if_neg hi, getProp, if_neg hlen, hci,
              List.getD_eq_getElem?_getD]
            have hlen2 : (es ++ List.replicate (i - es.length) JVal.undefined).length = i := by
              simp only [List.length_append, List.length_replicate]
              omega
            rw [List.getElem?_append_right (le_of_eq hlen2), hlen2]
            simp
      | none => simp [getProp, hlen, hci, findField_objInsert_self]
  | undefined => simp [isContainer] at hc
  | null => simp [isContainer] at hc
  | bool b => simp [isContainer] at hc
  | num n => simp [isContainer] at hc
  | str s => simp [isContainer] at hc

/-- The set/get round-trip precondition along a split path: every
position holds a container with a writable key, where a falsy slot
counts as the fresh `{}` the walk creates there. -/
def setGetOk : JVal → List String → Bool
  | _, [] => false
  | cur, k :: rest =>
      isContainer cur && arrKeyOk cur k &&
        (match rest with
         | [] => true
         | _ :: _ =>
             setGetOk (if truthy (getProp cur k) then getProp cur k else .obj [])
               rest)

theorem setGetOk_one (cur : JVal) (k : String) :
    setGetOk cur [k] = (isContainer cur && arrKeyOk cur k && true) := rfl

theorem setGetOk_cons (cur : JVal) (k k2 : String) (r2 : List String) :
    setGetOk cur (k :: k2 :: r2) =
      (isContainer cur && arrKeyOk cur k &&
        setGetOk (if truthy (getProp cur k) then getProp cur k else .obj [])
          (k2 :: r2)) := rfl

theorem setWalk_one (cur : JVal) (k : String) (x : JVal) :
    setWalk cur [k] x =
      if isNullish cur then none
      else if isContainer cur then some (setProp cur k x)
      else some cur := rfl

theorem setWalk_cons (cur : JVal) (k k2 : String) (r2 : List String)
    (x : JVal) :
    setWalk cur (k :: k2 :: r2) x =
      if isNullish cur then none
      else if isContainer cur then
        (setWalk (if truthy (getProp cur k) then getProp cur k else .obj [])
            (k2 :: r2) x).map (setProp cur k)
      else (setWalk .undefined (k2 :: r2) x).map (fun _ => cur) := rfl

theorem setGetOk_container {cur : JVal} {k : String} {rest : List String}
    (h : setGetOk cur (k :: rest) = true) : isContainer cur = true := by
  cases rest with
  | nil =>
      rw [setGetOk_one] at h
      simp only [Bool.and_eq_true] at h
      exact h.1.1
  | cons k2 r2 =>
      rw [setGetOk_cons] at h
      simp only [Bool.and_eq_true] at h
      exact h.1.1

/-- Set/get round trip over the walk: under `setGetOk`, the walk
succeeds, returns a container, and reading the same path back yields
exactly the value written. -/
theorem setWalk_roundtrip (parts : List String) :
    ∀ (cur x : JVal), setGetOk cur parts = true →
    ∃ cur2, setWalk cur parts x = some cur2 ∧ isContainer cur2 = true ∧
      parts.foldl getStep cur2 = x := by
  induction parts with
  | nil => intro cur x h; simp [setGetOk] at h
  | cons k rest ih =>
      intro cur x h
      cases rest with
      | nil =>
          rw [setGetOk_one] at h
          simp only [Bool.and_eq_true] at h
          obtain ⟨⟨hc, hak⟩, -⟩ := h
          have hnn := isNullish_of_container hc
          refine ⟨setProp cur k x, ?_, setProp_container hc k x, ?_⟩
          · rw [setWalk_one]
            simp [hnn, hc]
          · have ht2 := truthy_of_container (setProp_container hc k x)
            simp [List.foldl, getStep, ht2, getProp_setProp_self hc hak]
      | cons k2 r2 =>
          rw [setGetOk_cons] at h
          simp only [Bool.and_eq_true] at h
          obtain ⟨⟨hc, hak⟩, hrest⟩ := h
          have hnn := isNullish_of_container hc
          obtain ⟨nc, hwalk, hncc, hfold⟩ :=
            ih (if truthy (getProp cur k) then getProp cur k else .obj []) x hrest
          refine ⟨setProp cur k nc, ?_, setProp_container hc k nc, ?_⟩
          · rw [setWalk_cons, hwalk]
            simp [hnn, hc]
          · have ht2 := truthy_of_container (setProp_container hc k nc)
            simp only [List.foldl, getStep, ht2, if_true,
              getProp_setProp_self hc hak]
            exact hfold

/-- A path whose read resolves to a container satisfies the round-trip
precondition: every intermediate visited must itself have been a
container with a non-`length` key. -/
theorem setGetOk_of_fold_container (parts : List String) :
    ∀ cur : JVal, parts ≠ [] →
    isContainer (parts.foldl getStep cur) = true → setGetOk cur parts = true := by
  induction parts with
  | nil => intro cur h _; exact absurd rfl h
  | cons k rest ih =>
      intro cur _ hfold
      simp only [List.foldl] at hfold
      have htr : truthy cur = true := by
        by_contra hne
        have h0 : truthy cur = false := by
          cases htc : truthy cur
          · rfl
          · exact absurd htc hne
        rw [getStep_of_not_truthy h0, foldl_getStep_undefined] at hfold
        simp [isContainer] at hfold
      have hstep : getStep cur k = getProp cur k := by simp [getStep, htr]
      rw [hstep] at hfold
      cases rest with
      | nil =>
          simp only [List.foldl] at hfold
          have hcur : isContainer cur = true := by
            by_contra hne
            have h0 : isContainer cur = false := by
              cases htc : isContainer cur
              · rfl
              · exact absurd htc hne
            rw [getProp_of_not_container h0] at hfold
            simp [isContainer] at hfold
          have hak : arrKeyOk cur k = true := by
            cases cur with
            | arr es ps =>
                simp only [arrKeyOk, bne_iff_ne, ne_eq]
                intro hkl
                rw [hkl] at hfold
                simp [getProp, isContainer] at hfold
            | obj fs => rfl
            | undefined => simp [isContainer] at hcur
            | null => simp [isContainer] at hcur
            | bool b => simp [isContainer] at hcur
            | num n => simp [isContainer] at hcur
            | str s2 => simp [isContainer] at hcur
          rw [setGetOk_one]
          simp [hcur, hak]
      | cons k2 r2 =>
          have hok := ih (getProp cur k) (by simp) hfold
          have hcc := setGetOk_container hok
          have hcur : isContainer cur = true := by
            by_contra hne
            have h0 : isContainer cur = false := by
              cases htc : isContainer cur
              · rfl
              · exact absurd htc hne
            rw [getProp_of_not_container h0] at hcc
            simp [isContainer] at hcc
          have hak : arrKeyOk cur k = true := by
            cases cur with
            | arr es ps =>
                simp only [arrKeyOk, bne_iff_ne, ne_eq]
                intro hkl
                rw [hkl] at hcc
                simp [getProp, isContainer] at hcc
            | obj fs => rfl
            | undefined => simp [isContainer] at hcur
            | null => simp [isContainer] at hcur
            | bool b => simp [isContainer] at hcur
            | num n => simp [isContainer] at hcur
            | str s2 => simp [isContainer] at hcur
          have htc : truthy (getProp cur k) = true := truthy_of_container hcc
          rw [setGetOk_cons]
          simp [hcur, hak, htc, hok]

/-! ## JSON-safety propagation and clone identity -/

theorem findField_safe {fs : List (String × JVal)}
    (hs : jsonSafeFields fs = true) {k : String} {v : JVal}
    (hf : findField fs k = some v) : jsonSafe v = true := by
  induction fs with
  | nil => simp [findField] at hf
  | cons kv rest ih =>
      obtain ⟨k0, v0⟩ := kv
      simp only [jsonSafeFields, Bool.and_eq_true] at hs
      simp only [findField] at hf
      by_cases hk : k0 = k
      · rw [if_pos hk] at hf
        cases hf
        exact hs.1
      · rw [if_neg hk] at hf
        exact ih hs.2 hf

theorem jsonSafeList_getD {es : List JVal} (hs : jsonSafeList es = true)
    (i : Nat) :
    es.getD i .undefined = .undefined ∨ jsonSafe (es.getD i .undefined) = true := by
  induction es generalizing i with
  | nil => left; cases i <;> rfl
  | cons e rest ih =>
      simp only [jsonSafeList, Bool.and_eq_true] at hs
      cases i with
      | zero => right; simpa using hs.1
      | succ j => simpa using ih hs.2 j

theorem jsonSafe_getProp {v : JVal} (hs : jsonSafe v = true) (k : String) :
    getProp v k = .undefined ∨ jsonSafe (getProp v k) = true := by
  cases v with
  | obj fs =>
      simp only [getProp]
      cases hf : findField fs k with
      | none => left; rfl
      | some w =>
          right
          simpa using findField_safe (by simpa [jsonSafe] using hs) hf
  | arr es ps =>
      simp only [jsonSafe, Bool.and_eq_true] at hs
      obtain ⟨hps, hes⟩ := hs
      simp only [getProp]
      by_cases hk : k = "length"
      · right; simp [hk, jsonSafe]
      · simp only [if_neg hk]
        cases canonIdx k with
        | some i => simpa using jsonSafeList_getD hes i
        | none =>
            left
            have : ps = [] := by simpa using hps
            simp [this, findField]
  | undefined => left; rfl
  | null => left; rfl
  | bool b => left; rfl
  | num n => left; rfl
  | str s2 => left; rfl

theorem jsonSafe_fold (parts : List String) :
    ∀ cur : JVal, jsonSafe cur = true →
    parts.foldl getStep cur = .undefined ∨
      jsonSafe (parts.foldl getStep cur) = true := by
  induction parts with
  | nil => intro cur h; right; exact h
  | cons k rest ih =>
      intro cur h
      simp only [List.foldl]
      cases htr : truthy cur with
      | false => rw [getStep_of_not_truthy htr, foldl_getStep_undefined]; left; rfl
      | true =>
          have hstep : getStep cur k = getProp cur k := by simp [getStep, htr]
          rw [hstep]
          cases jsonSafe_getProp h k with
          | inl h0 => rw [h0, foldl_getStep_undefined]; left; rfl
          | inr h1 => exact ih (getProp cur k) h1

theorem cloneElems_eq {es : List JVal}
    (hih : ∀ e ∈ es, jsonSafe e = true → jsonClone e = e)
    (hs : jsonSafeList es = true) : cloneElems es = es := by
  induction es with
  | nil => rfl
  | cons e rest ih =>
      simp only [jsonSafeList, Bool.and_eq_true] at hs
      have he : jsonClone e = e := hih e (by simp) hs.1
      have hrest : cloneElems rest = rest :=
        ih (fun e2 hm hsafe => hih e2 (List.mem_cons_of_mem e hm) hsafe) hs.2
      cases e with
      | undefined => simp [jsonSafe] at hs
      | null => simp [cloneElems, hrest, he]
      | bool b => simp [cloneElems, hrest, he]
      | num n => simp [cloneElems, hrest, he]
      | str s2 => simp [cloneElems, hrest, he]
      | arr es2 ps2 => simp [cloneElems, hrest, he]
      | obj fs2 => simp [cloneElems, hrest, he]

theorem cloneFields_eq {fs : List (String × JVal)}
    (hih : ∀ kv ∈ fs, jsonSafe kv.2 = true → jsonClone kv.2 = kv.2)
    (hs : jsonSafeFields fs = true) : cloneFields fs = fs := by
  induction fs with
  | nil => rfl
  | cons kv rest ih =>
      obtain ⟨k0, v0⟩ := kv
      simp only [jsonSafeFields, Bool.and_eq_true] at hs
      have he : jsonClone v0 = v0 := hih (k0, v0) (by simp) hs.1
      have hrest : cloneFields rest = rest :=
        ih (fun kv2 hm hsafe => hih kv2 (List.mem_cons_of_mem _ hm) hsafe) hs.2
      cases v0 with
      | undefined => simp [jsonSafe] at hs
      | null => simp [cloneFields, hrest, he]
      | bool b => simp [cloneFields, hrest, he]
      | num n => simp [cloneFields, hrest, he]
      | str s2 => simp [cloneFields, hrest, he]
      | arr es2 ps2 => simp [cloneFields, hrest, he]
      | obj fs2 => simp [cloneFields, hrest, he]

/-- `JSON.parse(JSON.stringify(v))` is the identity on JSON-safe data. -/
theorem jsonClone_id : ∀ v : JVal, jsonSafe v = true → jsonClone v = v := by
  refine jvalIndOn ?_ ?_ ?_ ?_ ?_ ?_ ?_
  · intro h; simp [jsonSafe] at h
  · intro _; rfl
  · intro b _; rfl
  · intro n _; rfl
  · intro s2 _; rfl
  · intro es ps hes _ h
    simp only [jsonSafe, Bool.and_eq_true] at h
    have hps : ps = [] := by simpa using h.1
    subst hps
    simp [jsonClone, cloneElems_eq hes h.2]
  · intro fs hfs h
    simp [jsonClone, cloneFields_eq hfs (by simpa [jsonSafe] using h)]

/-! ## `_setState` specification -/

theorem isContainer_of_obj {v : JVal} (h : isObjectJS v = true) :
    isContainer v = true := by
  cases v <;> simp_all [isObjectJS, isContainer]

theorem getProp_setProp_other_obj (fs : List (String × JVal))
    {k k' : String} (hkk : k' ≠ k) (x : JVal) :
    getProp (setProp (.obj fs) k x) k' = getProp (.obj fs) k' := by
  simp [setProp, getProp, findField_objInsert_other fs hkk]

/-- Shape of a successful walk from a container: the result is the
container with key `k` rewritten; the new child is the value itself for
a leaf write, or the result of walking the (possibly freshly created)
child for a longer path. -/
theorem setWalk_shape {cur : JVal} {k : String} {rest : List String}
    {x st1 : JVal} (hc : isContainer cur = true)
    (hw : setWalk cur (k :: rest) x = some st1) :
    ∃ nc, st1 = setProp cur k nc ∧
      (rest = [] → nc = x) ∧
      (∀ k2 r2, rest = k2 :: r2 →
        setWalk (if truthy (getProp cur k) then getProp cur k else .obj [])
          rest x = some nc) := by
  have hnn := isNullish_of_container hc
  cases rest with
  | nil =>
      rw [setWalk_one] at hw
      simp only [hnn, hc, Bool.false_eq_true, if_false, if_true,
        Option.some.injEq] at hw
      exact ⟨x, hw.symm, ⟨fun _ => rfl, fun k2 r2 h => by cases h⟩⟩
  | cons k2 r2 =>
      rw [setWalk_cons] at hw
      simp only [hnn, hc, Bool.false_eq_true, if_false, if_true,
        Option.map_eq_some'] at hw
      obtain ⟨nc, hnc, hset⟩ := hw
      refine ⟨nc, hset.symm, ?_, fun _ _ _ => hnc⟩
      intro h
      cases h

/-- Paths on which the `ui.lastSaved` stamp of `_setState` cannot
interfere: either the path enters `ui` at a key other than `lastSaved`
(the walk itself then guarantees `_state.ui` is a container), or it
avoids `ui` entirely and `_state.ui` is then required to be readable
(assigning `lastSaved` below `undefined`/`null` would throw). -/
def stampSafe (st : JVal) (parts : List String) : Bool :=
  match parts with
  | [] => false
  | k :: rest =>
      if k = "ui" then
        match rest with
        | [] => false
        | k2 :: _ => k2 != "lastSaved"
      else !isNullish (getProp st "ui")

theorem stampSafe_cons (st : JVal) (k : String) (rest : List String) :
    stampSafe st (k :: rest) =
      if k = "ui" then
        (match rest with
         | [] => false
         | k2 :: _ => k2 != "lastSaved")
      else !isNullish (getProp st "ui") := rfl

/-- Behaviour of `_setState(path, value)` on the document: under the
round-trip and stamp preconditions it succeeds, keeps the document an
object, and reading `path` back returns exactly the written value (the
`ui.lastSaved` stamp not disturbing it); the preconditions survive to
the next operation. -/
theorem setStateCore_spec {st : JVal} {path : String} {parts : List String}
    (hsplit : splitPath path = parts)
    (hobj : isObjectJS st = true)
    (hsafe : jsonSafe st = true)
    (hok : setGetOk st parts = true)
    (hstamp : stampSafe st parts = true)
    (x : JVal) (now : String) :
    ∃ st2, setStateCore st path x now = some st2 ∧
      isObjectJS st2 = true ∧
      parts.foldl getStep st2 = x ∧
      stampSafe st2 parts = true := by
  obtain ⟨fs, rfl⟩ : ∃ fs, st = .obj fs := by
    cases st <;> simp_all [isObjectJS] <;> exact ⟨_, rfl⟩
  have hcont : isContainer (JVal.obj fs) = true := rfl
  obtain ⟨k, rest, rfl⟩ : ∃ k rest, parts = k :: rest := by
    cases parts with
    | nil => simp [setGetOk] at hok
    | cons k rest => exact ⟨k, rest, rfl⟩
  have hsetnv : ∀ st1, setWalk (JVal.obj fs) (k :: rest) x = some st1 →
      setNestedValue (.obj fs) path x = some st1 := by
    intro st1 hw
    rw [setNestedValue, hsplit, jsonClone_id _ hsafe]
    exact hw
  by_cases hkui : k = "ui"
  · -- the path enters `ui`; the stamp rewrites `ui.lastSaved`, which the
    -- path does not traverse
    subst hkui
    rw [stampSafe_cons, if_pos rfl] at hstamp
    obtain ⟨k2, r2, rfl⟩ : ∃ k2 r2, rest = k2 :: r2 := by
      cases rest with
      | nil => simp at hstamp
      | cons k2 r2 => exact ⟨k2, r2, rfl⟩
    have hk2 : k2 ≠ "lastSaved" := by simpa using hstamp
    rw [setGetOk_cons] at hok
    simp only [Bool.and_eq_true] at hok
    obtain ⟨⟨-, hak⟩, hokc⟩ := hok
    obtain ⟨nc, hwalkc, hncc, hfoldc⟩ := setWalk_roundtrip (k2 :: r2) _ x hokc
    have hw : setWalk (JVal.obj fs) ("ui" :: k2 :: r2) x =
        some (setProp (.obj fs) "ui" nc) := by
      rw [setWalk_cons, hwalkc]
      simp [isNullish, isContainer]
    have hsnv := hsetnv _ hw
    have hst1obj : isObjectJS (setProp (.obj fs) "ui" nc) = true :=
      setProp_obj _ _
    obtain ⟨fs1, hfs1⟩ : ∃ fs1, setProp (.obj fs) "ui" nc = .obj fs1 :=
      ⟨objInsert fs "ui" nc, rfl⟩
    have hu : getProp (setProp (.obj fs) "ui" nc) "ui" = nc :=
      getProp_setProp_self_obj fs "ui" nc
    have hunn : isNullish nc = false := isNullish_of_container hncc
    refine ⟨setProp (setProp (.obj fs) "ui" nc) "ui"
        (setProp nc "lastSaved" (.str now)), ?_, ?_, ?_, ?_⟩
    · simp only [setStateCore, hsnv, Option.some_bind, hu, hunn,
        Bool.false_eq_true, if_false, hncc, if_true]
    · rw [hfs1]; exact setProp_obj _ _
    · have hst2c : isContainer (setProp (setProp (.obj fs) "ui" nc) "ui"
          (setProp nc "lastSaved" (.str now))) = true := by
        rw [hfs1]; exact isContainer_of_obj (setProp_obj _ _)
      have ht2 := truthy_of_container hst2c
      simp only [List.foldl, getStep, ht2, if_true]
      have hu2 : getProp (setProp (setProp (.obj fs) "ui" nc) "ui"
          (setProp nc "lastSaved" (.str now))) "ui" =
          setProp nc "lastSaved" (.str now) := by
        rw [hfs1]; exact getProp_setProp_self_obj _ _ _
      rw [hu2]
      have hnc2c : isContainer (setProp nc "lastSaved" (.str now)) = true :=
        setProp_container hncc _ _
      have htnc2 := truthy_of_container hnc2c
      simp only [getStep, htnc2, if_true]
      have hread : getProp (setProp nc "lastSaved" (.str now)) k2 =
          getProp nc k2 :=
        getProp_setProp_other hncc hk2 (by decide) (by decide) _
      rw [hread]
      have htnc := truthy_of_container hncc
      simp only [List.foldl, getStep, htnc, if_true] at hfoldc
      exact hfoldc
    · rw [stampSafe_cons, if_pos rfl]
      simpa using hk2
  · -- the path avoids `ui`; the stamp rewrites only `ui.lastSaved`
    rw [stampSafe_cons, if_neg hkui] at hstamp
    have hnomui : isNullish (getProp (.obj fs) "ui") = false := by
      simpa using hstamp
    obtain ⟨st1, hwalk, hst1c, hfold1⟩ :=
      setWalk_roundtrip (k :: rest) (.obj fs) x hok
    obtain ⟨nc, hshape, -, -⟩ := setWalk_shape hcont hwalk
    have hsnv := hsetnv _ hwalk
    have hst1obj : isObjectJS st1 = true := by rw [hshape]; exact setProp_obj _ _
    obtain ⟨fs1, hfs1⟩ : ∃ fs1, st1 = .obj fs1 := by
      cases st1 <;> simp_all [isObjectJS] <;> exact ⟨_, rfl⟩
    have huiframe : getProp st1 "ui" = getProp (.obj fs) "ui" := by
      rw [hshape]
      exact getProp_setProp_other_obj fs (fun h => hkui h.symm) nc
    have hunn : isNullish (getProp st1 "ui") = false := by
      rw [huiframe]; exact hnomui
    by_cases hucont : isContainer (getProp st1 "ui") = true
    · refine ⟨setProp st1 "ui" (setProp (getProp st1 "ui") "lastSaved"
          (.str now)), ?_, ?_, ?_, ?_⟩
      · simp only [setStateCore, hsnv, Option.some_bind, hunn,
          Bool.false_eq_true, if_false, hucont, if_true]
      · rw [hfs1]; exact setProp_obj _ _
      · have hst2obj : isObjectJS (setProp st1 "ui"
            (setProp (getProp st1 "ui") "lastSaved" (.str now))) = true := by
          rw [hfs1]; exact setProp_obj _ _
        have ht2 := truthy_of_container (isContainer_of_obj hst2obj)
        have ht1 := truthy_of_container hst1c
        simp only [List.foldl, getStep, ht2, if_true]
        have hread : getProp (setProp st1 "ui"
            (setProp (getProp st1 "ui") "lastSaved" (.str now))) k =
            getProp st1 k := by
          rw [hfs1]
          exact getProp_setProp_other_obj _ hkui _
        rw [hread]
        simp only [List.foldl, getStep, ht1, if_true] at hfold1
        exact hfold1
      · rw [stampSafe_cons, if_neg hkui]
        have : getProp (setProp st1 "ui" (setProp (getProp st1 "ui")
            "lastSaved" (.str now))) "ui" =
            setProp (getProp st1 "ui") "lastSaved" (.str now) := by
          rw [hfs1]; exact getProp_setProp_self_obj _ _ _
        rw [this]
        simp [isNullish_of_container (setProp_container hucont _ _)]
    · refine ⟨st1, ?_, hst1obj, hfold1, ?_⟩
      · have hucf : isContainer (getProp st1 "ui") = false := by
          cases hc2 : isContainer (getProp st1 "ui")
          · rfl
          · exact absurd hc2 hucont
        simp only [setStateCore, hsnv, Option.some_bind, hunn,
          Bool.false_eq_true, if_false, hucf]
      · rw [stampSafe_cons, if_neg hkui]
        simpa using hunn

/-! ## Lookup lemmas for `_deepMerge` and object spreads -/

/-- JS objects cannot carry duplicate keys; theorems about arbitrary
field lists assume this invariant explicitly. -/
def keysNodup : List (String × JVal) → Bool
  | [] => true
  | (k, _) :: rest => !hasKeyB rest k && keysNodup rest

theorem findField_eq_none_of_not_hasKey {fs : List (String × JVal)}
    {k : String} (h : hasKeyB fs k = false) : findField fs k = none := by
  cases hf : findField fs k with
  | none => rfl
  | some v => simp [hasKeyB, hf] at h

theorem foldIns_findField_none (fs : List (String × JVal)) :
    ∀ (acc : List (String × JVal)) (k : String), findField fs k = none →
    findField (fs.foldl (fun a kv => objInsert a kv.1 kv.2) acc) k =
      findField acc k := by
  induction fs with
  | nil => intro acc k _; rfl
  | cons kv rest ih =>
      intro acc k hnone
      obtain ⟨k0, v0⟩ := kv
      simp only [findField] at hnone
      by_cases hk : k0 = k
      · rw [if_pos hk] at hnone; cases hnone
      · rw [if_neg hk] at hnone
        simp only [List.foldl_cons]
        rw [ih _ k hnone, findField_objInsert_other acc (fun h => hk h.symm)]

theorem foldIns_findField_some (fs : List (String × JVal)) :
    ∀ (acc : List (String × JVal)) (k : String) (v : JVal),
    keysNodup fs = true → findField fs k = some v →
    findField (fs.foldl (fun a kv => objInsert a kv.1 kv.2) acc) k = some v := by
  induction fs with
  | nil => intro acc k v _ h; simp [findField] at h
  | cons kv rest ih =>
      intro acc k v hnd hsome
      obtain ⟨k0, v0⟩ := kv
      simp only [keysNodup, Bool.and_eq_true] at hnd
      simp only [findField] at hsome
      by_cases hk : k0 = k
      · rw [if_pos hk] at hsome
        cases hsome
        subst hk
        have hrest : findField rest k0 = none :=
          findField_eq_none_of_not_hasKey (by simpa using hnd.1)
        simp only [List.foldl_cons]
        rw [foldIns_findField_none rest _ k0 hrest,
          findField_objInsert_self]
      · rw [if_neg hk] at hsome
        simp only [List.foldl_cons]
        exact ih _ k v hnd.2 hsome

theorem mergeFields_findField_none (sfs : List (String × JVal)) :
    ∀ (tfs acc : List (String × JVal)) (k : String), findField sfs k = none →
    findField (mergeFields tfs acc sfs) k = findField acc k := by
  induction sfs with
  | nil => intro tfs acc k _; rfl
  | cons kv rest ih =>
      intro tfs acc k hnone
      obtain ⟨k0, sv0⟩ := kv
      simp only [findField] at hnone
      by_cases hk : k0 = k
      · rw [if_pos hk] at hnone; cases hnone
      · rw [if_neg hk] at hnone
        simp only [mergeFields]
        rw [ih tfs _ k hnone,
          findField_objInsert_other acc (fun h => hk h.symm)]

theorem mergeFields_findField_some (sfs : List (String × JVal)) :
    ∀ (tfs acc : List (String × JVal)) (k : String) (sv : JVal),
    keysNodup sfs = true → findField sfs k = some sv →
    findField (mergeFields tfs acc sfs) k =
      some (if isObjectJS sv then
              if hasKeyB tfs k then deepMerge ((findField tfs k).getD .undefined) sv
              else sv
            else sv) := by
  induction sfs with
  | nil => intro tfs acc k sv _ h; simp [findField] at h
  | cons kv rest ih =>
      intro tfs acc k sv hnd hsome
      obtain ⟨k0, sv0⟩ := kv
      simp only [keysNodup, Bool.and_eq_true] at hnd
      simp only [findField] at hsome
      by_cases hk : k0 = k
      · rw [if_pos hk] at hsome
        cases hsome
        subst hk
        have hrest : findField rest k0 = none :=
          findField_eq_none_of_not_hasKey (by simpa using hnd.1)
        simp only [mergeFields]
        rw [mergeFields_findField_none rest tfs _ k0 hrest,
          findField_objInsert_self]
      · rw [if_neg hk] at hsome
        simp only [mergeFields]
        exact ih tfs _ k sv hnd.2 hsome

theorem deepMerge_obj_obj (tfs sfs : List (String × JVal)) :
    deepMerge (.obj tfs) (.obj sfs) = .obj (mergeFields tfs tfs sfs) := rfl

theorem deepMerge_isObj (t s : JVal) : isObjectJS (deepMerge t s) = true := by
  cases t <;> cases s <;> rfl

/-- Keys the imported object does not bind keep their current value. -/
theorem getProp_deepMerge_none {tfs sfs : List (String × JVal)} {k : String}
    (h : findField sfs k = none) :
    getProp (deepMerge (.obj tfs) (.obj sfs)) k = getProp (.obj tfs) k := by
  rw [deepMerge_obj_obj]
  simp only [getProp]
  rw [mergeFields_findField_none sfs tfs tfs k h]

/-- Keys the imported object binds: plain-object values recurse when the
key already exists, everything else wins outright. -/
theorem getProp_deepMerge_some {tfs sfs : List (String × JVal)} {k : String}
    {sv : JVal} (hnd : keysNodup sfs = true) (h : findField sfs k = some sv) :
    getProp (deepMerge (.obj tfs) (.obj sfs)) k =
      (if isObjectJS sv then
        if hasKeyB tfs k then deepMerge ((findField tfs k).getD .undefined) sv
        else sv
      else sv) := by
  rw [deepMerge_obj_obj]
  simp only [getProp]
  rw [mergeFields_findField_some sfs tfs tfs k sv hnd h]
  rfl

/-- Spreading an object over `[]` reproduces its lookups. -/
theorem findField_spreadFields_nil {efs : List (String × JVal)}
    (hnd : keysNodup efs = true) (k : String) :
    findField (spreadFields [] (.obj efs)) k = findField efs k := by
  simp only [spreadFields]
  cases hf : findField efs k with
  | none => rw [foldIns_findField_none efs [] k hf]; rfl
  | some v => exact foldIns_findField_some efs [] k v hnd hf

/-- `{ ...base spread, ...updates }`: an update key wins, any other key
falls through to the spread base. -/
theorem findField_spreadFields_updates {base ufs : List (String × JVal)}
    (hnd : keysNodup ufs = true) (k : String) :
    findField (spreadFields base (.obj ufs)) k =
      (match findField ufs k with
       | some uv => some uv
       | none => findField base k) := by
  simp only [spreadFields]
  cases hf : findField ufs k with
  | none => rw [foldIns_findField_none ufs base k hf]
  | some uv => rw [foldIns_findField_some ufs base k uv hnd hf]

/-! ## Small list facts -/

theorem findIdx?_append_singleton {l : List JVal} {p : JVal → Bool}
    {a : JVal} (hl : ∀ e ∈ l, p e = false) (ha : p a = true) :
    List.findIdx? p (l ++ [a]) = some l.length := by
  induction l with
  | nil => simp [List.findIdx?_cons, ha]
  | cons x xs ih =>
      have hx : p x = false := hl x (by simp)
      have hxs : ∀ e ∈ xs, p e = false := fun e he => hl e (by simp [he])
      simp only [List.cons_append, List.findIdx?_cons, hx,
        Bool.false_eq_true, if_false, List.findIdx?_succ, ih hxs]
      rfl

theorem countP_eq_zero_of_all_false {l : List JVal} {p : JVal → Bool}
    (h : ∀ e ∈ l, p e = false) : l.countP p = 0 := by
  induction l with
  | nil => rfl
  | cons x xs ih =>
      rw [List.countP_cons]
      have hx : p x = false := h x (by simp)
      have hxs := ih (fun e he => h e (by simp [he]))
      simp [hx, hxs]

theorem countP_not_add_countP (l : List JVal) (p : JVal → Bool) :
    l.countP (fun e => !p e) + l.countP p = l.length := by
  induction l with
  | nil => rfl
  | cons x xs ih =>
      rw [List.countP_cons, List.countP_cons]
      cases hx : p x <;> simp [hx] <;> omega

theorem filter_length_of_countP_one {l : List JVal} {p : JVal → Bool}
    (h : l.countP p = 1) :
    (l.filter fun e => !p e).length + 1 = l.length := by
  have h1 : (l.filter fun e => !p e).length = l.countP fun e => !p e :=
    (List.countP_eq_length_filter _ _).symm
  have h2 := countP_not_add_countP l p
  omega

theorem splitAux_ne_nil (cs : List Char) : ∀ acc, splitAux cs acc ≠ [] := by
  induction cs with
  | nil => intro acc; simp [splitAux]
  | cons c cs2 ih =>
      intro acc
      simp only [splitAux]
      by_cases hc : c = '.'
      · simp [hc]
      · simpa [hc] using ih (c :: acc)

theorem splitPath_ne_nil (path : String) : splitPath path ≠ [] :=
  splitAux_ne_nil path.data []

theorem ne_undefined_of_safe {v : JVal} (h : jsonSafe v = true) : v ≠ .undefined := by
  intro hv; rw [hv] at h; simp [jsonSafe] at h

theorem ne_undefined_of_isObj {v : JVal} (h : isObjectJS v = true) : v ≠ .undefined := by
  intro hv; rw [hv] at h; simp [isObjectJS] at h

theorem data_isEmpty_false {path : String} (h : path ≠ "") :
    path.data.isEmpty = false := by
  cases hd : path.data with
  | nil =>
      exfalso
      apply h
      cases path with
      | mk d => cases hd; rfl
  | cons c cs => rfl

/-- On a non-empty path `_getState` skips the whole-document branch and
returns the (clone of the) value the walk finds. -/
theorem getStateAt_of_ne {st : JVal} {path : String} (h : path ≠ "") :
    getStateAt st path =
      (match getNestedValue st path with
       | .undefined => .undefined
       | v => jsonClone v) := by
  rw [getStateAt, data_isEmpty_false h]
  rfl

/-- Common setup for the array item operations: when the path is
non-empty and the value at the array path is a JSON-safe array,
`_getState(arrayPath)` returns exactly that array, the path supports the
set/get round trip, and the elements are JSON-safe. -/
theorem arrayOp_setup {st : JVal} {path : String} {parts : List String}
    {elems : List JVal}
    (hsplit : splitPath path = parts)
    (hpne : path ≠ "")
    (hsafe : jsonSafe st = true)
    (harr : getNestedValue st path = .arr elems []) :
    getStateAt st path = .arr elems [] ∧ setGetOk st parts = true ∧
      jsonSafeList elems = true := by
  have hfold : parts.foldl getStep st = .arr elems [] := by
    rw [← hsplit, ← getNestedValue]; exact harr
  have hsafeArr : jsonSafe (JVal.arr elems []) = true := by
    cases jsonSafe_fold parts st hsafe with
    | inl h0 => rw [hfold] at h0; cases h0
    | inr h1 => rw [hfold] at h1; exact h1
  have hes : jsonSafeList elems = true := by
    simpa [jsonSafe] using hsafeArr
  refine ⟨?_, ?_, hes⟩
  · rw [getStateAt_of_ne hpne, harr]
    exact jsonClone_id _ hsafeArr
  · refine setGetOk_of_fold_container parts st ?_ ?_
    · rw [← hsplit]; exact splitPath_ne_nil path
    · rw [hfold]; rfl

/-! ## Claim C8: totality and short-circuit shape of `get` -/

/-- The specification's description of `get(document, path)`: walk one
segment at a time and return `undefined` as soon as the next value is
`undefined` or missing, otherwise continue to the final value.  This
definition follows the spec text and is compared against the embedded
`_getNestedValue` (refinement claim C8). -/
def specGet : JVal → List String → JVal
  | v, [] => v
  | v, k :: rest =>
      match getProp v k with
      | .undefined => .undefined
      | child => specGet child rest

theorem not_container_of_not_truthy {v : JVal} (h : truthy v = false) :
    isContainer v = false := by
  cases v <;> simp_all [truthy, isContainer]

theorem specGet_undefined (parts : List String) : specGet .undefined parts = .undefined := by
  cases parts with
  | nil => rfl
  | cons k rest => simp [specGet, getProp]

/-- C8 — For every document (including ones whose intermediate values
are primitives, null, or absent) and every dot-separated path string,
`_getNestedValue` is total and equals the specification walk `specGet`:
it returns `undefined` as soon as an intermediate lookup is `undefined`
or missing and otherwise returns the final value.  Totality and
exception-freedom hold by construction: the reduce body only reads a
property after the truthiness guard, which is exactly the behaviour
`specGet` captures on JSON data. -/
theorem c8_get_total_specGet (doc : JVal) (path : String) :
    getNestedValue doc path = specGet doc (splitPath path) := by
  rw [getNestedValue]
  generalize splitPath path = parts
  induction parts generalizing doc with
  | nil => rfl
  | cons k rest ih =>
      simp only [List.foldl]
      cases htr : truthy doc with
      | false =>
          rw [getStep_of_not_truthy htr, foldl_getStep_undefined]
          have hnc := not_container_of_not_truthy htr
          rw [specGet, getProp_of_not_container hnc]
      | true =>
          have hstep : getStep doc k = getProp doc k := by simp [getStep, htr]
          rw [hstep]
          cases hc : getProp doc k with
          | undefined => rw [foldl_getStep_undefined]; simp [specGet, hc]
          | null => simp only [specGet, hc]; exact ih _
          | bool b => simp only [specGet, hc]; exact ih _
          | num n => simp only [specGet, hc]; exact ih _
          | str s2 => simp only [specGet, hc]; exact ih _
          | arr es ps => simp only [specGet, hc]; exact ih _
          | obj fs => simp only [specGet, hc]; exact ih _

/-! ## Claim C6: subscriber fan-out with per-subscriber isolation -/

/-- C6 — The notification fan-out invokes every subscriber, in
subscription order, with the same `(path, value)` pair; a throwing
subscriber is caught (its error merely logged), so every
later-registered subscriber is still invoked with the same change.  The
invocation trace of `_notifySubscribers` is exactly one `(path, value)`
call per subscriber, in list order, regardless of which callbacks
throw. -/
theorem c6_notify_all_subscribers (subs : List Callback) (path : String)
    (value : JVal) :
    (notifyRun subs path value).map Prod.fst =
      List.replicate subs.length (path, value) := by
  induction subs with
  | nil => rfl
  | cons cb rest ih =>
      simp only [notifyRun, List.length_cons, List.replicate_succ]
      cases cb path value with
      | ok u => simpa using ih
      | error e => simpa using ih

/-! ## Claim C1: path set/get round trip -/

/-- C1 — The claim `get(set(doc, p, v), p) = v` for every JSON-safe
document fails on the code: with `doc = {a: 5}`, `p = "a.b"`,
`v = 1`, the walk descends into the truthy primitive `5`, the leaf
assignment `5.b = 1` is a sloppy-mode no-op, `set` returns `{a: 5}`
unchanged, and `get` then returns `undefined ≠ 1`. -/
theorem c1_roundtrip_counterexample :
    jsonSafe (.obj [("a", JVal.num 5)]) = true ∧
    setNestedValue (.obj [("a", JVal.num 5)]) "a.b" (.num 1) =
      some (.obj [("a", JVal.num 5)]) ∧
    getNestedValue (.obj [("a", JVal.num 5)]) "a.b" = .undefined ∧
    JVal.undefined ≠ JVal.num 1 :=
  ⟨rfl, rfl, rfl, fun h => JVal.noConfusion h⟩

/-- C1 (amended) — The round trip `get(set(doc, p, v), p) = v` holds for
every JSON-safe document and value provided every value already present
along a proper prefix of the path is falsy or a container (a plain
object, or an array not addressed at its `length` key) — the
`setGetOk` precondition.  Truthy primitive intermediates (the
counterexample) and array `length` slots are the only exclusions. -/
theorem c1_roundtrip_amended {doc : JVal} {p : String} {v : JVal}
    (hsafe : jsonSafe doc = true)
    (hok : setGetOk doc (splitPath p) = true) :
    ∃ doc2, setNestedValue doc p v = some doc2 ∧
      getNestedValue doc2 p = v := by
  rw [setNestedValue, jsonClone_id _ hsafe]
  obtain ⟨doc2, hw, -, hf⟩ := setWalk_roundtrip (splitPath p) doc v hok
  exact ⟨doc2, hw, by rw [getNestedValue]; exact hf⟩

theorem c1_roundtrip_amended_witness :
    jsonSafe (.obj [("a", JVal.num 0), ("z", JVal.str "keep")]) = true ∧
    setGetOk (.obj [("a", JVal.num 0), ("z", JVal.str "keep")])
      (splitPath "a.b") = true ∧
    ∃ doc2,
      setNestedValue (.obj [("a", JVal.num 0), ("z", JVal.str "keep")])
        "a.b" (.num 7) = some doc2 ∧
      getNestedValue doc2 "a.b" = .num 7 :=
  ⟨rfl, rfl, c1_roundtrip_amended rfl rfl⟩

/-! ## Claim C9: falsy intermediates are discarded by `set` -/

/-- When the target is not a plain object, `_deepMerge` degenerates to
`Object.assign({}, target)`: the source value is never consulted. -/
theorem deepMerge_not_obj {t : JVal} (h : isObjectJS t = false) (s : JVal) :
    deepMerge t s = .obj (spreadFields [] t) := by
  cases t <;> cases s <;> first | rfl | simp [isObjectJS] at h

/-- C4 — The claim fails as stated: "any other imported value wins
outright" does not hold for an imported plain-object value at a key the
current document binds to a non-object.  `combat.currentEncounter`
defaults to `null`; importing `{"combat":{"currentEncounter":{"id":"e1"}}}`
over the default store reports success, but the slot afterwards holds
`{}` — `_deepMerge(null, {id:"e1"})` is `Object.assign({}, null)` and
the source loop is skipped because `isObject(null)` is false — not the
imported object. -/
theorem c4_import_counterexample :
    (stateImport defaultState (some (.obj [("combat",
        .obj [("currentEncounter", .obj [("id", .str "e1")])])]))).2 =
      true ∧
    getNestedValue (stateImport defaultState (some (.obj [("combat",
        .obj [("currentEncounter", .obj [("id", .str "e1")])])]))).1
      "combat.currentEncounter" = .obj [] ∧
    JVal.obj [] ≠ JVal.obj [("id", JVal.str "e1")] :=
  ⟨rfl, rfl, by intro h; injection h with h2; exact List.noConfusion h2⟩

/-- C4 (amended) — `import`: (i) a string that does not parse
(`parsed = none`, the `catch` path) returns failure with the document
untouched; (ii) a string parsing to an object returns success and
replaces the document with the deep merge of the parsed object over the
current document, where keys bound only in the current document are
preserved, a key whose values are plain objects on both sides is merged
recursively, any imported non-object value (arrays included) wins
outright, and an imported plain-object value wins outright only at keys
the current document does not bind — over a current non-object value the
result is instead `Object.assign({}, currentValue)` (the empty object
for `null` or a number/boolean), losing the imported value; (iii) the
concrete scenario: importing `{"settings":{"autosaveInterval":30}}` over
the default store keeps `settings.confirmBeforeDelete = true` while
setting `settings.autosaveInterval = 30`. -/
theorem c4_import_semantics (st : JVal) :
    stateImport st none = (st, false) ∧
    (∀ tfs sfs : List (String × JVal), keysNodup sfs = true →
      (stateImport (.obj tfs) (some (.obj sfs))).2 = true ∧
      (∀ k, findField sfs k = none →
        getProp (stateImport (.obj tfs) (some (.obj sfs))).1 k =
          getProp (.obj tfs) k) ∧
      (∀ k sv, findField sfs k = some sv → isObjectJS sv = false →
        getProp (stateImport (.obj tfs) (some (.obj sfs))).1 k = sv) ∧
      (∀ k sv, findField sfs k = some sv → isObjectJS sv = true →
        hasKeyB tfs k = true →
        getProp (stateImport (.obj tfs) (some (.obj sfs))).1 k =
          deepMerge ((findField tfs k).getD .undefined) sv) ∧
      (∀ k sv, findField sfs k = some sv → isObjectJS sv = true →
        hasKeyB tfs k = false →
        getProp (stateImport (.obj tfs) (some (.obj sfs))).1 k = sv) ∧
      (∀ k sv tv, findField sfs k = some sv → isObjectJS sv = true →
        findField tfs k = some tv → isObjectJS tv = false →
        getProp (stateImport (.obj tfs) (some (.obj sfs))).1 k =
          .obj (spreadFields [] tv))) ∧
    (getNestedValue (stateImport defaultState
        (some (.obj [("settings", .obj [("autosaveInterval", .num 30)])]))).1
        "settings.confirmBeforeDelete" = .bool true ∧
     getNestedValue (stateImport defaultState
        (some (.obj [("settings", .obj [("autosaveInterval", .num 30)])]))).1
        "settings.autosaveInterval" = .num 30) := by
  refine ⟨rfl, ?_, rfl, rfl⟩
  intro tfs sfs hnd
  refine ⟨rfl, ?_, ?_, ?_, ?_, ?_⟩
  · intro k hk
    exact getProp_deepMerge_none hk
  · intro k sv hk hsv
    rw [show (stateImport (.obj tfs) (some (.obj sfs))).1 =
        deepMerge (.obj tfs) (.obj sfs) from rfl]
    rw [getProp_deepMerge_some hnd hk, if_neg (by simp [hsv])]
  · intro k sv hk hsv hkey
    rw [show (stateImport (.obj tfs) (some (.obj sfs))).1 =
        deepMerge (.obj tfs) (.obj sfs) from rfl]
    rw [getProp_deepMerge_some hnd hk, if_pos (by simp [hsv]), if_pos hkey]
  · intro k sv hk hsv hkey
    rw [show (stateImport (.obj tfs) (some (.obj sfs))).1 =
        deepMerge (.obj tfs) (.obj sfs) from rfl]
    rw [getProp_deepMerge_some hnd hk, if_pos (by simp [hsv]),
      if_neg (by simp [hkey])]
  · intro k sv tv hk hsv htk htv
    have hkey : hasKeyB tfs k = true := by simp [hasKeyB, htk]
    rw [show (stateImport (.obj tfs) (some (.obj sfs))).1 =
        deepMerge (.obj tfs) (.obj sfs) from rfl]
    rw [getProp_deepMerge_some hnd hk, if_pos (by simp [hsv]), if_pos hkey,
      htk, Option.getD_some, deepMerge_not_obj htv]

theorem c4_import_semantics_witness :
    stateImport (.obj [("a", JVal.num 1)]) none =
      (.obj [("a", JVal.num 1)], false) ∧
    keysNodup [("b", JVal.num 2), ("c", JVal.arr [JVal.num 3] []),
      ("a", JVal.obj [("y", JVal.num 9)]), ("d", JVal.obj [("w", JVal.num 1)]),
      ("n", JVal.obj [("q", JVal.num 2)])] = true ∧
    (stateImport (.obj [("a", JVal.obj [("x", JVal.num 8)]), ("n", JVal.null)])
        (some (.obj [("b", JVal.num 2), ("c", JVal.arr [JVal.num 3] []),
          ("a", JVal.obj [("y", JVal.num 9)]),
          ("d", JVal.obj [("w", JVal.num 1)]),
          ("n", JVal.obj [("q", JVal.num 2)])]))).2 = true ∧
    getProp (stateImport
        (.obj [("a", JVal.obj [("x", JVal.num 8)]), ("n", JVal.null)])
        (some (.obj [("b", JVal.num 2), ("c", JVal.arr [JVal.num 3] []),
          ("a", JVal.obj [("y", JVal.num 9)]),
          ("d", JVal.obj [("w", JVal.num 1)]),
          ("n", JVal.obj [("q", JVal.num 2)])]))).1 "zz" =
      getProp (.obj [("a", JVal.obj [("x", JVal.num 8)]),
        ("n", JVal.null)]) "zz" ∧
    getProp (stateImport
        (.obj [("a", JVal.obj [("x", JVal.num 8)]), ("n", JVal.null)])
        (some (.obj [("b", JVal.num 2), ("c", JVal.arr [JVal.num 3] []),
          ("a", JVal.obj [("y", JVal.num 9)]),
          ("d", JVal.obj [("w", JVal.num 1)]),
          ("n", JVal.obj [("q", JVal.num 2)])]))).1 "c" =
      JVal.arr [JVal.num 3] [] ∧
    getProp (stateImport
        (.obj [("a", JVal.obj [("x", JVal.num 8)]), ("n", JVal.null)])
        (some (.obj [("b", JVal.num 2), ("c", JVal.arr [JVal.num 3] []),
          ("a", JVal.obj [("y", JVal.num 9)]),
          ("d", JVal.obj [("w", JVal.num 1)]),
          ("n", JVal.obj [("q", JVal.num 2)])]))).1 "a" =
      deepMerge ((findField [("a", JVal.obj [("x", JVal.num 8)]),
        ("n", JVal.null)] "a").getD .undefined) (.obj [("y", JVal.num 9)]) ∧
    getProp (stateImport
        (.obj [("a", JVal.obj [("x", JVal.num 8)]), ("n", JVal.null)])
        (some (.obj [("b", JVal.num 2), ("c", JVal.arr [JVal.num 3] []),
          ("a", JVal.obj [("y", JVal.num 9)]),
          ("d", JVal.obj [("w", JVal.num 1)]),
          ("n", JVal.obj [("q", JVal.num 2)])]))).1 "d" =
      JVal.obj [("w", JVal.num 1)] ∧
    getProp (stateImport
        (.obj [("a", JVal.obj [("x", JVal.num 8)]), ("n", JVal.null)])
        (some (.obj [("b", JVal.num 2), ("c", JVal.arr [JVal.num 3] []),
          ("a", JVal.obj [("y", JVal.num 9)]),
          ("d", JVal.obj [("w", JVal.num 1)]),
          ("n", JVal.obj [("q", JVal.num 2)])]))).1 "n" =
      JVal.obj [] := by
  have h := (c4_import_semantics (.obj [("a", JVal.num 1)])).2.1
    [("a", JVal.obj [("x", JVal.num 8)]), ("n", JVal.null)]
    [("b", JVal.num 2), ("c", JVal.arr [JVal.num 3] []),
     ("a", JVal.obj [("y", JVal.num 9)]), ("d", JVal.obj [("w", JVal.num 1)]),
     ("n", JVal.obj [("q", JVal.num 2)])] rfl
  exact ⟨(c4_import_semantics (.obj [("a", JVal.num 1)])).1, rfl, h.1,
    h.2.1 "zz" rfl, h.2.2.1 "c" (.arr [JVal.num 3] []) rfl rfl,
    h.2.2.2.1 "a" (.obj [("y", JVal.num 9)]) rfl rfl rfl,
    h.2.2.2.2.1 "d" (.obj [("w", JVal.num 1)]) rfl rfl rfl,
    h.2.2.2.2.2 "n" (.obj [("q", JVal.num 2)]) JVal.null rfl rfl rfl rfl⟩

/-! ## Claim C10: load-over-skeleton preserves defaults -/

/-- C10 — For every persisted plain-object document (JSON-safe, keys
unique as JS guarantees), the state produced by `_loadFromStorage`
deep-merging it over the default skeleton preserves every skeleton key
the persisted object does not bind; each of the five top-level sections
is still present; and where the persisted object provides a section as a
plain object, the merge recurses, so a default key absent from that
persisted section keeps its default value. -/
theorem c10_load_preserves_defaults (sfs : List (String × JVal))
    (hnd : keysNodup sfs = true) (hsafe : jsonSafeFields sfs = true) :
    (loadState (some (.obj sfs))).2 = true ∧
    (∀ k, findField sfs k = none →
      getProp (loadState (some (.obj sfs))).1 k = getProp defaultState k) ∧
    (∀ sec, sec ∈ ["ui", "story", "characters", "combat", "settings"] →
      getProp (loadState (some (.obj sfs))).1 sec ≠ .undefined ∧
      (∀ svfs, findField sfs sec = some (.obj svfs) →
        getProp (loadState (some (.obj sfs))).1 sec =
          deepMerge (getProp defaultState sec) (.obj svfs) ∧
        (∀ dsfs k2, getProp defaultState sec = .obj dsfs →
          findField svfs k2 = none →
          getProp (getProp (loadState (some (.obj sfs))).1 sec) k2 =
            getProp (.obj dsfs) k2))) := by
  refine ⟨rfl, ?_, ?_⟩
  · intro k hk
    exact getProp_deepMerge_none hk
  · intro sec hsec
    have hdef : ∃ dsec, findField defaultFields sec = some dsec ∧
        isObjectJS dsec = true := by
      fin_cases hsec <;> exact ⟨_, rfl, rfl⟩
    obtain ⟨dsec, hdf, hdobj⟩ := hdef
    have hkey : hasKeyB defaultFields sec = true := by simp [hasKeyB, hdf]
    have hgetdef : getProp defaultState sec = dsec := by
      show (findField defaultFields sec).getD .undefined = dsec
      rw [hdf]; rfl
    constructor
    · cases hf : findField sfs sec with
      | none =>
          rw [show (loadState (some (.obj sfs))).1 =
              deepMerge (.obj defaultFields) (.obj sfs) from rfl,
            getProp_deepMerge_none hf]
          rw [show getProp (.obj defaultFields) sec =
              (findField defaultFields sec).getD .undefined from rfl, hdf]
          exact ne_undefined_of_isObj hdobj
      | some sv =>
          rw [show (loadState (some (.obj sfs))).1 =
              deepMerge (.obj defaultFields) (.obj sfs) from rfl,
            getProp_deepMerge_some hnd hf]
          by_cases hsv : isObjectJS sv = true
          · rw [if_pos hsv, if_pos hkey]
            exact ne_undefined_of_isObj (deepMerge_isObj _ _)
          · rw [if_neg hsv]
            exact ne_undefined_of_safe (findField_safe hsafe hf)
    · intro svfs hsf
      have hmain : getProp (loadState (some (.obj sfs))).1 sec =
          deepMerge (getProp defaultState sec) (.obj svfs) := by
        rw [show (loadState (some (.obj sfs))).1 =
            deepMerge (.obj defaultFields) (.obj sfs) from rfl,
          getProp_deepMerge_some hnd hsf,
          if_pos (show isObjectJS (.obj svfs) = true from rfl),
          if_pos hkey, hgetdef]
        rw [show (findField defaultFields sec).getD .undefined = dsec from by
          rw [hdf]; rfl]
      refine ⟨hmain, ?_⟩
      intro dsfs k2 hdsec hk2
      rw [hmain, hdsec]
      exact getProp_deepMerge_none hk2

theorem c10_load_preserves_defaults_witness :
    keysNodup [("settings", JVal.obj [("autosaveInterval", JVal.num 30)]),
      ("extra", JVal.num 5)] = true ∧
    jsonSafeFields [("settings", JVal.obj [("autosaveInterval", JVal.num 30)]),
      ("extra", JVal.num 5)] = true ∧
    (loadState (some (.obj [("settings",
        JVal.obj [("autosaveInterval", JVal.num 30)]),
        ("extra", JVal.num 5)]))).2 = true ∧
    getProp (loadState (some (.obj [("settings",
        JVal.obj [("autosaveInterval", JVal.num 30)]),
        ("extra", JVal.num 5)]))).1 "story" = getProp defaultState "story" ∧
    getProp (getProp (loadState (some (.obj [("settings",
        JVal.obj [("autosaveInterval", JVal.num 30)]),
        ("extra", JVal.num 5)]))).1 "settings") "confirmBeforeDelete" =
      getProp (.obj [("autosaveInterval", JVal.num 60),
        ("confirmBeforeDelete", JVal.bool true),
        ("showHiddenInfo", JVal.bool false),
        ("diceRollerEnabled", JVal.bool true),
        ("soundEffectsEnabled", JVal.bool false),
        ("notificationsEnabled", JVal.bool true)]) "confirmBeforeDelete" := by
  have h := c10_load_preserves_defaults
    [("settings", JVal.obj [("autosaveInterval", JVal.num 30)]),
     ("extra", JVal.num 5)] rfl rfl
  exact ⟨rfl, rfl, h.1, h.2.1 "story" rfl,
    ((h.2.2 "settings" (by simp)).2 _ rfl).2 _ "confirmBeforeDelete" rfl rfl⟩

/-! ## Claim C2: removeItem semantics -/

/-- A state whose `xs` collection carries two elements with the same id
(reachable because `_addItem` keeps any truthy caller-supplied id). -/
def dupIdState : JVal :=
  .obj [("ui", .obj [("lastSaved", .null)]),
        ("xs", .arr [.obj [("id", .str "x")], .obj [("id", .str "x")]] [])]

/-- C2 — The claim fails as stated: `_removeItem` filters out every
element with the matching id, so with two elements carrying id `"x"` it
returns success but shortens the array by two, not "exactly one".
Before: length 2; after: length 0; `0 + 1 ≠ 2`. -/
theorem c2_remove_counterexample :
    getNestedValue dupIdState "xs" =
      .arr [.obj [("id", .str "x")], .obj [("id", .str "x")]] [] ∧
    removeItem dupIdState "xs" (.str "x") "T0" =
      some (.obj [("ui", .obj [("lastSaved", .str "T0")]),
                  ("xs", .arr [] [])], true) ∧
    (0 : Nat) + 1 ≠ 2 :=
  ⟨rfl, rfl, by decide⟩

/-- C2 (amended) — For a JSON-safe object state, a non-empty array path
whose value is an array of non-null elements, held outside the slots the
`ui.lastSaved` timestamp stamp overwrites: an id carried by no element
yields failure with the state (hence the array length) untouched; an id
carried by exactly one element yields success with the array at the path
afterwards exactly one element shorter.  (With duplicated ids — the
counterexample — all matches are removed at once; the non-null-element
hypothesis reflects that `item.id` on a `null` element would throw in
the source, and the non-empty path keeps `_getState` off its
whole-document branch, on which `filter` would throw.) -/
theorem c2_remove_semantics {st : JVal} {path : String} {parts : List String}
    {elems : List JVal} {itemId : JVal} {now : String}
    (hsplit : splitPath path = parts)
    (hpne : path ≠ "")
    (hobj : isObjectJS st = true)
    (hsafe : jsonSafe st = true)
    (harr : getNestedValue st path = .arr elems [])
    (hstamp : stampSafe st parts = true)
    (helems : elems.all (fun e => !isNullish e) = true) :
    (elems.countP (fun e => jStrictEq (getProp e "id") itemId) = 0 →
      removeItem st path itemId now = some (st, false)) ∧
    (elems.countP (fun e => jStrictEq (getProp e "id") itemId) = 1 →
      ∃ st2, removeItem st path itemId now = some (st2, true) ∧
        getNestedValue st2 path =
          .arr (elems.filter fun e => !jStrictEq (getProp e "id") itemId) [] ∧
        (elems.filter fun e => !jStrictEq (getProp e "id") itemId).length + 1 =
          elems.length) := by
  obtain ⟨hget, hok, hsafeEs⟩ := arrayOp_setup hsplit hpne hsafe harr
  constructor
  · intro hc
    have hall : ∀ e ∈ elems, ¬(jStrictEq (getProp e "id") itemId = true) :=
      List.countP_eq_zero.mp hc
    have hfilter :
        (elems.filter fun e => !jStrictEq (getProp e "id") itemId) = elems :=
      List.filter_eq_self.mpr (fun a ha => by
        simp only [Bool.not_eq_true']
        cases hje : jStrictEq (getProp a "id") itemId
        · rfl
        · exact absurd hje (hall a ha))
    simp only [removeItem, hget, truthy, if_true, hfilter]
  · intro hc
    have hlen := filter_length_of_countP_one hc
    have hne : ¬((elems.filter fun e =>
        !jStrictEq (getProp e "id") itemId).length = elems.length) := by
      omega
    obtain ⟨st2, hsc, -, hfold2, -⟩ := setStateCore_spec hsplit hobj hsafe hok
      hstamp (.arr (elems.filter fun e => !jStrictEq (getProp e "id") itemId)
        []) now
    refine ⟨st2, ?_, ?_, hlen⟩
    · simp only [removeItem, hget, truthy, if_true, if_neg hne, hsc,
        Option.map_some']
    · rw [getNestedValue, hsplit]
      exact hfold2

theorem c2_remove_semantics_witness :
    (removeItem
      (.obj [("ui", .obj [("lastSaved", JVal.null)]),
             ("xs", .arr [.obj [("id", .str "x")],
                          .obj [("id", .str "y")]] [])])
      "xs" (.str "zz") "T0" =
      some (.obj [("ui", .obj [("lastSaved", JVal.null)]),
             ("xs", .arr [.obj [("id", .str "x")],
                          .obj [("id", .str "y")]] [])], false)) ∧
    (∃ st2, removeItem
      (.obj [("ui", .obj [("lastSaved", JVal.null)]),
             ("xs", .arr [.obj [("id", .str "x")],
                          .obj [("id", .str "y")]] [])])
      "xs" (.str "x") "T0" = some (st2, true) ∧
      getNestedValue st2 "xs" =
        .arr ([.obj [("id", .str "x")], .obj [("id", .str "y")]].filter
          fun e => !jStrictEq (getProp e "id") (.str "x")) [] ∧
      ([.obj [("id", .str "x")], .obj [("id", .str "y")]].filter
          (fun e => !jStrictEq (getProp e "id") (JVal.str "x"))).length + 1 =
        ([.obj [("id", .str "x")], .obj [("id", .str "y")]] :
          List JVal).length) :=
  ⟨(@c2_remove_semantics
      (.obj [("ui", .obj [("lastSaved", JVal.null)]),
             ("xs", .arr [.obj [("id", .str "x")],
                          .obj [("id", .str "y")]] [])])
      "xs" ["xs"] [.obj [("id", .str "x")], .obj [("id", .str "y")]]
      (.str "zz") "T0" rfl (by decide) rfl rfl rfl rfl rfl).1 rfl,
   (@c2_remove_semantics
      (.obj [("ui", .obj [("lastSaved", JVal.null)]),
             ("xs", .arr [.obj [("id", .str "x")],
                          .obj [("id", .str "y")]] [])])
      "xs" ["xs"] [.obj [("id", .str "x")], .obj [("id", .str "y")]]
      (.str "x") "T0" rfl (by decide) rfl rfl rfl rfl rfl).2 rfl⟩

/-! ## Claim C3: updateItem semantics -/

/-- A (reachable but unusual) state holding an array at `ui.lastSaved`,
the one slot `_setState` always overwrites with a timestamp. -/
def lastSavedArrState : JVal :=
  .obj [("ui", .obj [("lastSaved",
      .arr [.obj [("id", .str "x"), ("a", .num 0)]] [])])]

/-- C3 — The claim fails as stated: on the array path `ui.lastSaved`,
`_updateItem` finds the element and returns success, but the write-back
`_setState` immediately overwrites `ui.lastSaved` with the timestamp
string, so the array does not end up holding the shallow-merged element
— the value at the path afterwards is the timestamp, not an array. -/
theorem c3_update_counterexample :
    (updateItem lastSavedArrState "ui.lastSaved" (.str "x")
        (.obj [("a", .num 1)]) "T0").map
      (fun r => (r.2, getNestedValue r.1 "ui.lastSaved")) =
      some (true, .str "T0") := rfl

/-- C3 (amended) — For a JSON-safe object state and a non-empty array
path whose elements are non-null, held outside the `ui.lastSaved` slot
(which the timestamp stamp overwrites, as the counterexample shows): if
no element's id strictly equals the requested id, `_updateItem` returns
`false` and the entire state document is unchanged; if the first match
is at index `i` (an object with unique keys, as JS guarantees), it
returns `true` and the array at the path afterwards has exactly that
element replaced by the shallow merge `{...element, ...updates}` — a key
bound by `updates` (nested object or not) wins outright, every other key
keeps the element's value.  (The non-null-element hypothesis reflects
that the `findIndex` callback's `item.id` would throw on a `null`
element; the non-empty path keeps `_getState` off its whole-document
branch, on which `findIndex` would throw.) -/
theorem c3_update_semantics {st : JVal} {path : String} {parts : List String}
    {elems : List JVal} {itemId : JVal} {ufs : List (String × JVal)}
    {now : String}
    (hsplit : splitPath path = parts)
    (hpne : path ≠ "")
    (hobj : isObjectJS st = true)
    (hsafe : jsonSafe st = true)
    (harr : getNestedValue st path = .arr elems [])
    (hstamp : stampSafe st parts = true)
    (helems : elems.all (fun e => !isNullish e) = true)
    (hund : keysNodup ufs = true) :
    (List.findIdx? (fun item => jStrictEq (getProp item "id") itemId) elems =
        none →
      updateItem st path itemId (.obj ufs) now = some (st, false)) ∧
    (∀ i efs,
      List.findIdx? (fun item => jStrictEq (getProp item "id") itemId) elems =
        some i →
      elems.getD i .undefined = .obj efs → keysNodup efs = true →
      ∃ st2, updateItem st path itemId (.obj ufs) now = some (st2, true) ∧
        getNestedValue st2 path =
          .arr (elems.take i ++
            [.obj (spreadFields (spreadFields [] (.obj efs)) (.obj ufs))] ++
            elems.drop (i + 1)) [] ∧
        (∀ k, getProp
            (.obj (spreadFields (spreadFields [] (.obj efs)) (.obj ufs))) k =
          (match findField ufs k with
           | some uv => uv
           | none => getProp (.obj efs) k))) := by
  obtain ⟨hget, hok, hsafeEs⟩ := arrayOp_setup hsplit hpne hsafe harr
  constructor
  · intro hidx
    simp only [updateItem, hget, truthy, if_true, hidx]
  · intro i efs hidx helem hnde
    obtain ⟨st2, hsc, -, hfold2, -⟩ := setStateCore_spec hsplit hobj hsafe hok
      hstamp (.arr (elems.take i ++
        [.obj (spreadFields (spreadFields [] (.obj efs)) (.obj ufs))] ++
        elems.drop (i + 1)) []) now
    refine ⟨st2, ?_, ?_, ?_⟩
    · simp only [updateItem, hget, truthy, if_true, hidx, helem, hsc,
        Option.map_some']
    · rw [getNestedValue, hsplit]
      exact hfold2
    · intro k
      show (findField (spreadFields (spreadFields [] (.obj efs)) (.obj ufs))
          k).getD .undefined = _
      rw [findField_spreadFields_updates hund k]
      cases hf : findField ufs k with
      | some uv => rfl
      | none =>
          show (findField (spreadFields [] (.obj efs)) k).getD .undefined = _
          rw [findField_spreadFields_nil hnde k]
          rfl

theorem c3_update_semantics_witness :
    (updateItem
      (.obj [("ui", .obj [("lastSaved", JVal.null)]),
             ("xs", .arr [.obj [("id", .str "x"),
               ("hp", .obj [("current", .num 5), ("max", .num 9)])]] [])])
      "xs" (.str "zz") (.obj [("hp", .obj [("current", .num 7)])]) "T0" =
      some (.obj [("ui", .obj [("lastSaved", JVal.null)]),
             ("xs", .arr [.obj [("id", .str "x"),
               ("hp", .obj [("current", .num 5), ("max", .num 9)])]] [])],
        false)) ∧
    (∃ st2, updateItem
      (.obj [("ui", .obj [("lastSaved", JVal.null)]),
             ("xs", .arr [.obj [("id", .str "x"),
               ("hp", .obj [("current", .num 5), ("max", .num 9)])]] [])])
      "xs" (.str "x") (.obj [("hp", .obj [("current", .num 7)])]) "T0" =
        some (st2, true) ∧
      getNestedValue st2 "xs" =
        .arr ([] ++ [.obj (spreadFields (spreadFields []
          (.obj [("id", .str "x"),
            ("hp", .obj [("current", .num 5), ("max", .num 9)])]))
          (.obj [("hp", .obj [("current", .num 7)])]))] ++ []) [] ∧
      (∀ k, getProp (.obj (spreadFields (spreadFields []
          (.obj [("id", .str "x"),
            ("hp", .obj [("current", .num 5), ("max", .num 9)])]))
          (.obj [("hp", .obj [("current", .num 7)])]))) k =
        (match findField [("hp", JVal.obj [("current", JVal.num 7)])] k with
         | some uv => uv
         | none => getProp (.obj [("id", .str "x"),
             ("hp", .obj [("current", .num 5), ("max", .num 9)])]) k))) :=
  ⟨(@c3_update_semantics
      (.obj [("ui", .obj [("lastSaved", JVal.null)]),
             ("xs", .arr [.obj [("id", .str "x"),
               ("hp", .obj [("current", .num 5), ("max", .num 9)])]] [])])
      "xs" ["xs"]
      [.obj [("id", .str "x"),
        ("hp", .obj [("current", .num 5), ("max", .num 9)])]]
      (.str "zz") [("hp", .obj [("current", .num 7)])] "T0"
      rfl (by decide) rfl rfl rfl rfl rfl rfl).1 rfl,
   (@c3_update_semantics
      (.obj [("ui", .obj [("lastSaved", JVal.null)]),
             ("xs", .arr [.obj [("id", .str "x"),
               ("hp", .obj [("current", .num 5), ("max", .num 9)])]] [])])
      "xs" ["xs"]
      [.obj [("id", .str "x"),
        ("hp", .obj [("current", .num 5), ("max", .num 9)])]]
      (.str "x") [("hp", .obj [("current", .num 7)])] "T0"
      rfl (by decide) rfl rfl rfl rfl rfl rfl).2 0
     [("id", .str "x"), ("hp", .obj [("current", .num 5), ("max", .num 9)])]
     rfl rfl rfl⟩

/-! ## Object-path machinery for chained operations (claim C5) -/

/-- Round-trip precondition restricted to plain-object intermediates —
the shape of every real collection path in the store (for example
`characters.npcs`). -/
def objPathOk : JVal → List String → Bool
  | _, [] => false
  | cur, k :: rest =>
      isObjectJS cur &&
        (match rest with
         | [] => true
         | _ :: _ =>
             objPathOk
               (if truthy (getProp cur k) then getProp cur k else .obj [])
               rest)

theorem objPathOk_one (cur : JVal) (k : String) :
    objPathOk cur [k] = (isObjectJS cur && true) := rfl

theorem objPathOk_cons (cur : JVal) (k k2 : String) (r2 : List String) :
    objPathOk cur (k :: k2 :: r2) =
      (isObjectJS cur &&
        objPathOk (if truthy (getProp cur k) then getProp cur k else .obj [])
          (k2 :: r2)) := rfl

theorem jsonSafeFields_objInsert {fs : List (String × JVal)} {k : String}
    {x : JVal} (hf : jsonSafeFields fs = true) (hx : jsonSafe x = true) :
    jsonSafeFields (objInsert fs k x) = true := by
  induction fs with
  | nil => simp [objInsert, jsonSafeFields, hx]
  | cons kv rest ih =>
      obtain ⟨k0, v0⟩ := kv
      simp only [jsonSafeFields, Bool.and_eq_true] at hf
      by_cases hk : k0 = k
      · simp [objInsert, hk, jsonSafeFields, hx, hf.2]
      · simp [objInsert, hk, jsonSafeFields, hf.1, ih hf.2]

theorem jsonSafe_setProp_obj {fs : List (String × JVal)} {k : String}
    {x : JVal} (hf : jsonSafe (.obj fs) = true) (hx : jsonSafe x = true) :
    jsonSafe (setProp (.obj fs) k x) = true := by
  show jsonSafeFields (objInsert fs k x) = true
  exact jsonSafeFields_objInsert (by simpa [jsonSafe] using hf) hx

theorem jsonSafeList_append {l1 l2 : List JVal} :
    jsonSafeList (l1 ++ l2) = (jsonSafeList l1 && jsonSafeList l2) := by
  induction l1 with
  | nil => simp [jsonSafeList]
  | cons e rest ih => simp [jsonSafeList, ih, Bool.and_assoc]

/-- One-key frame for `objPathOk`: rewriting a key the path does not
start with preserves the precondition. -/
theorem objPathOk_insert_other {fs : List (String × JVal)} {kk : String}
    {x : JVal} {k2 : String} {r2 : List String} (hk : k2 ≠ kk)
    (h : objPathOk (.obj fs) (k2 :: r2) = true) :
    objPathOk (setProp (.obj fs) kk x) (k2 :: r2) = true := by
  cases r2 with
  | nil =>
      rw [objPathOk_one]
      simp [setProp_obj]
  | cons k3 r3 =>
      rw [objPathOk_cons] at h ⊢
      simp only [Bool.and_eq_true] at h ⊢
      refine ⟨setProp_obj _ _, ?_⟩
      rw [getProp_setProp_other_obj fs hk x]
      exact h.2

/-- Walk specification on plain-object paths: additionally preserves
JSON-safety and the object-path precondition. -/
theorem setWalkObj_spec (parts : List String) :
    ∀ (cur x : JVal), objPathOk cur parts = true → jsonSafe cur = true →
    jsonSafe x = true →
    ∃ cur2, setWalk cur parts x = some cur2 ∧ isObjectJS cur2 = true ∧
      parts.foldl getStep cur2 = x ∧ jsonSafe cur2 = true ∧
      objPathOk cur2 parts = true := by
  induction parts with
  | nil => intro cur x h _ _; simp [objPathOk] at h
  | cons k rest ih =>
      intro cur x h hsafe hx
      cases rest with
      | nil =>
          rw [objPathOk_one, Bool.and_eq_true] at h
          obtain ⟨fs, rfl⟩ : ∃ fs, cur = .obj fs := by
            cases cur <;> simp_all [isObjectJS] <;> exact ⟨_, rfl⟩
          refine ⟨setProp (.obj fs) k x, ?_, setProp_obj _ _, ?_, ?_, ?_⟩
          · rw [setWalk_one]; rfl
          · have ht2 := truthy_of_container
              (isContainer_of_obj (@setProp_obj fs k x))
            simp [List.foldl, getStep, ht2, getProp_setProp_self_obj]
          · exact jsonSafe_setProp_obj hsafe hx
          · rw [objPathOk_one]
            simp [setProp_obj]
      | cons k2 r2 =>
          rw [objPathOk_cons, Bool.and_eq_true] at h
          obtain ⟨hco, hrest⟩ := h
          obtain ⟨fs, rfl⟩ : ∃ fs, cur = .obj fs := by
            cases cur <;> simp_all [isObjectJS] <;> exact ⟨_, rfl⟩
          have hchildsafe : jsonSafe (if truthy (getProp (.obj fs) k)
              then getProp (.obj fs) k else .obj []) = true := by
            by_cases ht : truthy (getProp (.obj fs) k) = true
            · rw [if_pos ht]
              cases jsonSafe_getProp hsafe k with
              | inl h0 => rw [h0] at ht; simp [truthy] at ht
              | inr h1 => exact h1
            · rw [if_neg ht]; rfl
          obtain ⟨nc, hwalk, hncobj, hfold, hncsafe, hncok⟩ :=
            ih _ x hrest hchildsafe hx
          refine ⟨setProp (.obj fs) k nc, ?_, setProp_obj _ _, ?_, ?_, ?_⟩
          · rw [setWalk_cons, hwalk]
            simp [isNullish, isContainer]
          · have ht2 := truthy_of_container
              (isContainer_of_obj (@setProp_obj fs k nc))
            simp only [List.foldl, getStep, ht2, if_true,
              getProp_setProp_self_obj]
            exact hfold
          · exact jsonSafe_setProp_obj hsafe hncsafe
          · rw [objPathOk_cons, Bool.and_eq_true]
            refine ⟨setProp_obj _ _, ?_⟩
            rw [getProp_setProp_self_obj fs k nc,
              if_pos (truthy_of_container (isContainer_of_obj hncobj))]
            exact hncok

/-- `_setState` specification on plain-object paths, strengthened so a
second operation can be chained: the resulting document is again a
JSON-safe object satisfying all the preconditions. -/
theorem setStateCoreObj_spec {st : JVal} {path : String}
    {parts : List String}
    (hsplit : splitPath path = parts)
    (hsafe : jsonSafe st = true)
    (hpath : objPathOk st parts = true)
    (hstamp : stampSafe st parts = true)
    (huiobj : isContainer (getProp st "ui") = true →
      isObjectJS (getProp st "ui") = true)
    {x : JVal} (hx : jsonSafe x = true) (now : String) :
    ∃ st2, setStateCore st path x now = some st2 ∧
      isObjectJS st2 = true ∧
      parts.foldl getStep st2 = x ∧
      jsonSafe st2 = true ∧
      objPathOk st2 parts = true ∧
      stampSafe st2 parts = true ∧
      (isContainer (getProp st2 "ui") = true →
        isObjectJS (getProp st2 "ui") = true) := by
  obtain ⟨k, rest, rfl⟩ : ∃ k rest, parts = k :: rest := by
    cases parts with
    | nil => simp [objPathOk] at hpath
    | cons k rest => exact ⟨k, rest, rfl⟩
  have hobj : isObjectJS st = true := by
    cases rest with
    | nil => rw [objPathOk_one, Bool.and_eq_true] at hpath; exact hpath.1
    | cons k2 r2 =>
        rw [objPathOk_cons, Bool.and_eq_true] at hpath; exact hpath.1
  obtain ⟨fs, rfl⟩ : ∃ fs, st = .obj fs := by
    cases st <;> simp_all [isObjectJS] <;> exact ⟨_, rfl⟩
  have hsetnv : ∀ st1, setWalk (JVal.obj fs) (k :: rest) x = some st1 →
      setNestedValue (.obj fs) path x = some st1 := by
    intro st1 hw
    rw [setNestedValue, hsplit, jsonClone_id _ hsafe]
    exact hw
  obtain ⟨st1, hwalk, hst1obj, hfold1, hst1safe, hst1ok⟩ :=
    setWalkObj_spec (k :: rest) (.obj fs) x hpath hsafe hx
  have hsnv := hsetnv _ hwalk
  obtain ⟨nc, hshape, -, hnc⟩ := setWalk_shape (isContainer_of_obj hobj) hwalk
  obtain ⟨fs1, hfs1⟩ : ∃ fs1, st1 = .obj fs1 := by
    cases st1 <;> simp_all [isObjectJS] <;> exact ⟨_, rfl⟩
  by_cases hkui : k = "ui"
  · subst hkui
    rw [stampSafe_cons, if_pos rfl] at hstamp
    obtain ⟨k2, r2, rfl⟩ : ∃ k2 r2, rest = k2 :: r2 := by
      cases rest with
      | nil => simp at hstamp
      | cons k2 r2 => exact ⟨k2, r2, rfl⟩
    have hk2 : k2 ≠ "lastSaved" := by simpa using hstamp
    -- identify the child the walk produced below `ui`
    have hchildsafe : jsonSafe (if truthy (getProp (.obj fs) "ui")
        then getProp (.obj fs) "ui" else .obj []) = true := by
      by_cases ht : truthy (getProp (.obj fs) "ui") = true
      · rw [if_pos ht]
        cases jsonSafe_getProp hsafe "ui" with
        | inl h0 => rw [h0] at ht; simp [truthy] at ht
        | inr h1 => exact h1
      · rw [if_neg ht]; rfl
    have hrest : objPathOk (if truthy (getProp (.obj fs) "ui")
        then getProp (.obj fs) "ui" else .obj []) (k2 :: r2) = true := by
      rw [objPathOk_cons, Bool.and_eq_true] at hpath
      exact hpath.2
    obtain ⟨nc2, hwalk2, hnc2obj, hfold2, hnc2safe, hnc2ok⟩ :=
      setWalkObj_spec (k2 :: r2) _ x hrest hchildsafe hx
    have hnceq : nc = nc2 := by
      have h1 := hnc k2 r2 rfl
      rw [hwalk2] at h1
      exact (Option.some.injEq _ _).mp h1.symm ▸ rfl
    subst hnceq
    obtain ⟨ncfs, hncfs⟩ : ∃ ncfs, nc = .obj ncfs := by
      cases nc <;> simp_all [isObjectJS] <;> exact ⟨_, rfl⟩
    have hu : getProp st1 "ui" = nc := by
      rw [hshape]; exact getProp_setProp_self_obj fs "ui" nc
    have hucont : isContainer nc = true := isContainer_of_obj hnc2obj
    refine ⟨setProp st1 "ui" (setProp nc "lastSaved" (.str now)),
      ?_, ?_, ?_, ?_, ?_, ?_, ?_⟩
    · simp only [setStateCore, hsnv, Option.some_bind, hu,
        isNullish_of_container hucont, Bool.false_eq_true, if_false,
        hucont, if_true]
    · rw [hfs1]; exact setProp_obj _ _
    · have hst2obj : isObjectJS (setProp st1 "ui"
          (setProp nc "lastSaved" (.str now))) = true := by
        rw [hfs1]; exact setProp_obj _ _
      have ht2 := truthy_of_container (isContainer_of_obj hst2obj)
      simp only [List.foldl, getStep, ht2, if_true]
      have hu2 : getProp (setProp st1 "ui"
          (setProp nc "lastSaved" (.str now))) "ui" =
          setProp nc "lastSaved" (.str now) := by
        rw [hfs1]; exact getProp_setProp_self_obj _ _ _
      rw [hu2]
      have hnc2c : isObjectJS (setProp nc "lastSaved" (.str now)) = true := by
        rw [hncfs]; exact setProp_obj _ _
      have htnc2 := truthy_of_container (isContainer_of_obj hnc2c)
      simp only [getStep, htnc2, if_true]
      have hread : getProp (setProp nc "lastSaved" (.str now)) k2 =
          getProp nc k2 := by
        rw [hncfs]; exact getProp_setProp_other_obj _ hk2 _
      rw [hread]
      have htnc := truthy_of_container hucont
      simp only [List.foldl, getStep, htnc, if_true] at hfold2
      exact hfold2
    · rw [hfs1]
      refine jsonSafe_setProp_obj (by rw [← hfs1]; exact hst1safe) ?_
      rw [hncfs]
      exact jsonSafe_setProp_obj (by rw [← hncfs]; exact hnc2safe) rfl
    · rw [objPathOk_cons, Bool.and_eq_true]
      have hst2obj : isObjectJS (setProp st1 "ui"
          (setProp nc "lastSaved" (.str now))) = true := by
        rw [hfs1]; exact setProp_obj _ _
      refine ⟨hst2obj, ?_⟩
      have hu2 : getProp (setProp st1 "ui"
          (setProp nc "lastSaved" (.str now))) "ui" =
          setProp nc "lastSaved" (.str now) := by
        rw [hfs1]; exact getProp_setProp_self_obj _ _ _
      rw [hu2]
      have hnc2c : isObjectJS (setProp nc "lastSaved" (.str now)) = true := by
        rw [hncfs]; exact setProp_obj _ _
      rw [if_pos (truthy_of_container (isContainer_of_obj hnc2c))]
      rw [hncfs]
      exact objPathOk_insert_other hk2 (by rw [← hncfs]; exact hnc2ok)
    · rw [stampSafe_cons, if_pos rfl]
      simpa using hk2
    · intro _
      have hu2 : getProp (setProp st1 "ui"
          (setProp nc "lastSaved" (.str now))) "ui" =
          setProp nc "lastSaved" (.str now) := by
        rw [hfs1]; exact getProp_setProp_self_obj _ _ _
      rw [hu2, hncfs]
      exact setProp_obj _ _
  · rw [stampSafe_cons, if_neg hkui] at hstamp
    have hnomui : isNullish (getProp (.obj fs) "ui") = false := by
      simpa using hstamp
    have huiframe : getProp st1 "ui" = getProp (.obj fs) "ui" := by
      rw [hshape]
      exact getProp_setProp_other_obj fs (fun h => hkui h.symm) nc
    have hunn : isNullish (getProp st1 "ui") = false := by
      rw [huiframe]; exact hnomui
    by_cases hucont : isContainer (getProp st1 "ui") = true
    · have huobj : isObjectJS (getProp st1 "ui") = true := by
        rw [huiframe] at hucont ⊢
        exact huiobj hucont
      obtain ⟨ufs2, hufs2⟩ : ∃ ufs2, getProp st1 "ui" = .obj ufs2 := by
        cases hgg : getProp st1 "ui" <;> rw [hgg] at huobj <;>
          simp_all [isObjectJS] <;> exact ⟨_, rfl⟩
      have husafe : jsonSafe (getProp st1 "ui") = true := by
        cases jsonSafe_getProp hst1safe "ui" with
        | inl h0 => rw [h0] at hucont; simp [isContainer] at hucont
        | inr h1 => exact h1
      refine ⟨setProp st1 "ui" (setProp (getProp st1 "ui") "lastSaved"
          (.str now)), ?_, ?_, ?_, ?_, ?_, ?_, ?_⟩
      · simp only [setStateCore, hsnv, Option.some_bind, hunn,
          Bool.false_eq_true, if_false, hucont, if_true]
      · rw [hfs1]; exact setProp_obj _ _
      · have hst2obj : isObjectJS (setProp st1 "ui"
            (setProp (getProp st1 "ui") "lastSaved" (.str now))) = true := by
          rw [hfs1]; exact setProp_obj _ _
        have ht2 := truthy_of_container (isContainer_of_obj hst2obj)
        have ht1 := truthy_of_container (isContainer_of_obj hst1obj)
        simp only [List.foldl, getStep, ht2, if_true]
        have hread : getProp (setProp st1 "ui"
            (setProp (getProp st1 "ui") "lastSaved" (.str now))) k =
            getProp st1 k := by
          rw [hfs1]
          exact getProp_setProp_other_obj _ hkui _
        rw [hread]
        simp only [List.foldl, getStep, ht1, if_true] at hfold1
        exact hfold1
      · have husafe2 : jsonSafe (setProp (getProp st1 "ui") "lastSaved"
            (.str now)) = true := by
          rw [hufs2]
          exact jsonSafe_setProp_obj (by rw [← hufs2]; exact husafe) rfl
        rw [hfs1]
        exact jsonSafe_setProp_obj (by rw [← hfs1]; exact hst1safe)
          (by rw [← hfs1]; exact husafe2)
      · rw [hfs1]
        exact objPathOk_insert_other hkui (by rw [← hfs1]; exact hst1ok)
      · rw [stampSafe_cons, if_neg hkui]
        have hgg : getProp (setProp st1 "ui" (setProp (getProp st1 "ui")
            "lastSaved" (.str now))) "ui" =
            setProp (getProp st1 "ui") "lastSaved" (.str now) := by
          rw [hfs1]; exact getProp_setProp_self_obj _ _ _
        rw [hgg, hufs2]
        simp [isNullish_of_container (isContainer_of_obj (setProp_obj _ _))]
      · intro _
        have hgg : getProp (setProp st1 "ui" (setProp (getProp st1 "ui")
            "lastSaved" (.str now))) "ui" =
            setProp (getProp st1 "ui") "lastSaved" (.str now) := by
          rw [hfs1]; exact getProp_setProp_self_obj _ _ _
        rw [hgg, hufs2]
        exact setProp_obj _ _
    · have hucf : isContainer (getProp st1 "ui") = false := by
        cases hc2 : isContainer (getProp st1 "ui")
        · rfl
        · exact absurd hc2 hucont
      refine ⟨st1, ?_, hst1obj, hfold1, hst1safe, hst1ok, ?_, ?_⟩
      · simp only [setStateCore, hsnv, Option.some_bind, hunn,
          Bool.false_eq_true, if_false, hucf]
      · rw [stampSafe_cons, if_neg hkui]
        simpa using hunn
      · intro hcc
        rw [hcc] at hucf
        cases hucf

theorem jStrictEq_self_of_prim {v : JVal} (h : isPrimValue v = true) :
    jStrictEq v v = true := by
  cases v <;> simp_all [isPrimValue, jStrictEq]

theorem jsonSafeFields_foldIns {fs : List (String × JVal)} :
    ∀ {acc : List (String × JVal)}, jsonSafeFields acc = true →
    jsonSafeFields fs = true →
    jsonSafeFields (fs.foldl (fun a kv => objInsert a kv.1 kv.2) acc) =
      true := by
  induction fs with
  | nil => intro acc hacc _; exact hacc
  | cons kv rest ih =>
      intro acc hacc hfs
      obtain ⟨k0, v0⟩ := kv
      simp only [jsonSafeFields, Bool.and_eq_true] at hfs
      simp only [List.foldl_cons]
      exact ih (jsonSafeFields_objInsert hacc hfs.1) hfs.2

/-! ## Claim C5: addItem followed by updateItem -/

/-- A state whose `xs` collection already carries an element with id
`"x"`; `_addItem` keeps a truthy caller-supplied id unchanged. -/
def dupAddState : JVal :=
  .obj [("ui", .obj [("lastSaved", .null)]),
        ("xs", .arr [.obj [("id", .str "x")]] [])]

/-- C5 — The claim fails as stated: `_addItem` keeps a truthy
caller-supplied id without checking it against the collection, so adding
`{id: "x"}` to an array that already carries id `"x"` returns the id
`"x"` while the resulting collection holds it twice, not "exactly
once". -/
theorem c5_add_counterexample :
    addItem dupAddState "xs" (.obj [("id", .str "x")]) "gen1" "T0" =
      some (.obj [("ui", .obj [("lastSaved", .str "T0")]),
                  ("xs", .arr [.obj [("id", .str "x")],
                               .obj [("id", .str "x")]] [])], .str "x") ∧
    ([.obj [("id", .str "x")], .obj [("id", .str "x")]] :
        List JVal).countP
      (fun e => jStrictEq (getProp e "id") (.str "x")) = 2 ∧
    (2 : Nat) ≠ 1 :=
  ⟨rfl, rfl, by decide⟩

/-- C5 (amended) — For a JSON-safe object state with an array of
elements at a plain-object collection path (held outside the
`ui.lastSaved` slot), and an item record whose effective id — the
caller-supplied one if truthy, else the freshly generated
`_generateId()` string — is a primitive that no existing element
carries: `addItem` returns that id, the resulting array is the old one
with the item appended, the returned id appears as the id field of
exactly one element, and `updateItem` with the returned id immediately
afterwards returns success.  (The freshness and primitive-id hypotheses
are forced by the counterexample and by object-valued ids, which the
clone-then-compare lookup can never match again; the non-empty path —
implied by `objPathOk` but stated for `_getState`'s whole-document
branch — and the non-null elements fence the spots where the source
would throw on the follow-up `findIndex`.) -/
theorem c5_add_semantics {st : JVal} {path : String} {parts : List String}
    {elems : List JVal} {ifs ufs : List (String × JVal)} {rid : JVal}
    {genId now now2 : String}
    (hsplit : splitPath path = parts)
    (hpne : path ≠ "")
    (hsafe : jsonSafe st = true)
    (hpath : objPathOk st parts = true)
    (hstamp : stampSafe st parts = true)
    (huiobj : isContainer (getProp st "ui") = true →
      isObjectJS (getProp st "ui") = true)
    (harr : getNestedValue st path = .arr elems [])
    (helems : elems.all (fun e => !isNullish e) = true)
    (hitem : jsonSafe (.obj ifs) = true)
    (hufs : jsonSafeFields ufs = true)
    (hrid : rid = (if truthy (getProp (.obj ifs) "id")
      then getProp (.obj ifs) "id" else .str genId))
    (hprim : isPrimValue rid = true)
    (hfresh : ∀ e ∈ elems, jStrictEq (getProp e "id") rid = false) :
    ∃ st2,
      addItem st path (.obj ifs) genId now = some (st2, rid) ∧
      getNestedValue st2 path =
        .arr (elems ++ [if truthy (getProp (.obj ifs) "id") then .obj ifs
          else setProp (.obj ifs) "id" (.str genId)]) [] ∧
      (elems ++ [if truthy (getProp (.obj ifs) "id") then .obj ifs
          else setProp (.obj ifs) "id" (.str genId)]).countP
        (fun e => jStrictEq (getProp e "id") rid) = 1 ∧
      ∃ st3, updateItem st2 path rid (.obj ufs) now2 = some (st3, true) := by
  obtain ⟨hget, -, hsafeEs⟩ := arrayOp_setup hsplit hpne hsafe harr
  -- facts about the effective appended item
  obtain ⟨ifs1, hifs1⟩ : ∃ ifs1,
      (if truthy (getProp (.obj ifs) "id") then JVal.obj ifs
       else setProp (.obj ifs) "id" (.str genId)) = .obj ifs1 := by
    by_cases ht : truthy (getProp (.obj ifs) "id") = true
    · exact ⟨ifs, by rw [if_pos ht]⟩
    · exact ⟨objInsert ifs "id" (.str genId), by rw [if_neg ht]; rfl⟩
  have hi1safe : jsonSafe (JVal.obj ifs1) = true := by
    rw [← hifs1]
    by_cases ht : truthy (getProp (.obj ifs) "id") = true
    · rw [if_pos ht]; exact hitem
    · rw [if_neg ht]; exact jsonSafe_setProp_obj hitem rfl
  have hi1id : getProp (JVal.obj ifs1) "id" = rid := by
    rw [← hifs1]
    by_cases ht : truthy (getProp (.obj ifs) "id") = true
    · rw [if_pos ht, hrid, if_pos ht]
    · rw [if_neg ht, hrid, if_neg ht]
      exact getProp_setProp_self_obj ifs "id" _
  have hnewsafe : jsonSafe (JVal.arr (elems ++ [JVal.obj ifs1]) []) = true := by
    show (List.isEmpty ([] : List (String × JVal)) && jsonSafeList (elems ++ [JVal.obj ifs1])) = true
    rw [jsonSafeList_append]
    simp [hsafeEs, jsonSafeList, hi1safe]
  obtain ⟨st2, hsc, hst2obj, hfold2, hst2safe, hst2ok, hst2stamp, hst2ui⟩ :=
    setStateCoreObj_spec hsplit hsafe hpath hstamp huiobj hnewsafe now
  have hpred1 : (fun e => jStrictEq (getProp e "id") rid) (JVal.obj ifs1) =
      true := by
    show jStrictEq (getProp (JVal.obj ifs1) "id") rid = true
    rw [hi1id]
    exact jStrictEq_self_of_prim hprim
  have hget2nv : getNestedValue st2 path = .arr (elems ++ [JVal.obj ifs1]) [] := by
    rw [getNestedValue, hsplit]
    exact hfold2
  refine ⟨st2, ?_, ?_, ?_, ?_⟩
  · -- the `addItem` call itself
    rw [show addItem st path (.obj ifs) genId now =
        (setStateCore st path
          (.arr (elems ++ [if truthy (getProp (.obj ifs) "id") then JVal.obj ifs
            else setProp (.obj ifs) "id" (.str genId)]) []) now).map
          (fun s => (s, getProp
            (if truthy (getProp (.obj ifs) "id") then JVal.obj ifs
             else setProp (.obj ifs) "id" (.str genId)) "id")) from by
      simp only [addItem, hget, truthy, if_true]]
    rw [hifs1, hsc, Option.map_some', hi1id]
  · rw [hifs1]
    exact hget2nv
  · rw [hifs1, List.countP_append,
      countP_eq_zero_of_all_false hfresh]
    simp [List.countP_cons, hpred1]
  · -- the follow-up `updateItem` succeeds
    have hget2 : getStateAt st2 path = .arr (elems ++ [JVal.obj ifs1]) [] := by
      rw [getStateAt_of_ne hpne, hget2nv]
      exact jsonClone_id _ hnewsafe
    have hfind : List.findIdx? (fun item => jStrictEq (getProp item "id") rid)
        (elems ++ [JVal.obj ifs1]) = some elems.length :=
      findIdx?_append_singleton hfresh hpred1
    have hgetd : (elems ++ [JVal.obj ifs1]).getD elems.length .undefined =
        .obj ifs1 := by
      rw [List.getD_eq_getElem?_getD, List.getElem?_concat_length]
      rfl
    have htake : (elems ++ [JVal.obj ifs1]).take elems.length = elems :=
      List.take_left elems [JVal.obj ifs1]
    have hdrop : (elems ++ [JVal.obj ifs1]).drop (elems.length + 1) = [] :=
      List.drop_eq_nil_of_le (by simp)
    have hmsafe : jsonSafe (JVal.obj (spreadFields
        (spreadFields [] (JVal.obj ifs1)) (.obj ufs))) = true := by
      show jsonSafeFields (spreadFields
        (spreadFields [] (JVal.obj ifs1)) (.obj ufs)) = true
      have h1 : jsonSafeFields (spreadFields [] (JVal.obj ifs1)) = true := by
        show jsonSafeFields (ifs1.foldl (fun a kv => objInsert a kv.1 kv.2)
          []) = true
        exact jsonSafeFields_foldIns rfl (by simpa [jsonSafe] using hi1safe)
      show jsonSafeFields (ufs.foldl (fun a kv => objInsert a kv.1 kv.2)
        (spreadFields [] (JVal.obj ifs1))) = true
      exact jsonSafeFields_foldIns h1 hufs
    have hnewsafe2 : jsonSafe (JVal.arr (elems ++ [JVal.obj (spreadFields
        (spreadFields [] (JVal.obj ifs1)) (.obj ufs))]) []) = true := by
      show (List.isEmpty ([] : List (String × JVal)) && jsonSafeList (elems ++ [JVal.obj (spreadFields
        (spreadFields [] (JVal.obj ifs1)) (.obj ufs))])) = true
      rw [jsonSafeList_append]
      simp [hsafeEs, jsonSafeList, hmsafe]
    obtain ⟨st3, hsc3, -, -, -, -, -, -⟩ :=
      setStateCoreObj_spec hsplit hst2safe hst2ok hst2stamp hst2ui
        hnewsafe2 now2
    refine ⟨st3, ?_⟩
    rw [show updateItem st2 path rid (.obj ufs) now2 =
        (setStateCore st2 path (.arr ((elems ++ [JVal.obj ifs1]).take
          elems.length ++ [.obj (spreadFields (spreadFields []
            ((elems ++ [JVal.obj ifs1]).getD elems.length .undefined))
            (.obj ufs))] ++
          (elems ++ [JVal.obj ifs1]).drop (elems.length + 1)) []) now2).map
          (fun s => (s, true)) from by
      simp only [updateItem, hget2, truthy, if_true, hfind]]
    rw [hgetd, htake, hdrop, List.append_nil, hsc3, Option.map_some']

theorem c5_add_semantics_witness :
    ∃ st2,
      addItem (.obj [("ui", .obj [("lastSaved", JVal.null)]),
          ("xs", .arr [.obj [("id", .str "a1")]] [])])
        "xs" (.obj [("name", .str "Goblin")]) "g1" "T0" =
        some (st2, .str "g1") ∧
      getNestedValue st2 "xs" =
        .arr ([.obj [("id", .str "a1")]] ++
          [if truthy (getProp (.obj [("name", JVal.str "Goblin")]) "id")
           then .obj [("name", JVal.str "Goblin")]
           else setProp (.obj [("name", JVal.str "Goblin")]) "id"
             (.str "g1")]) [] ∧
      (([.obj [("id", .str "a1")]] : List JVal) ++
          [if truthy (getProp (.obj [("name", JVal.str "Goblin")]) "id")
           then .obj [("name", JVal.str "Goblin")]
           else setProp (.obj [("name", JVal.str "Goblin")]) "id"
             (.str "g1")]).countP
        (fun e => jStrictEq (getProp e "id") (.str "g1")) = 1 ∧
      ∃ st3, updateItem st2 "xs" (.str "g1")
          (.obj [("name", .str "Orc")]) "T1" = some (st3, true) :=
  @c5_add_semantics
    (.obj [("ui", .obj [("lastSaved", JVal.null)]),
        ("xs", .arr [.obj [("id", .str "a1")]] [])])
    "xs" ["xs"] [.obj [("id", .str "a1")]]
    [("name", .str "Goblin")] [("name", .str "Orc")] (.str "g1")
    "g1" "T0" "T1"
    rfl (by decide) rfl rfl rfl (fun _ => rfl) rfl rfl rfl rfl rfl rfl
    (by decide)

/-! ## Claim C7: deleting a character and its relationships -/

/-- A state shaped like the store's seed data
(`_initializeWithSampleData`): relationship endpoints are named `source`
and `target`. -/
def seedShapedState : JVal :=
  .obj [("ui", .obj [("lastSaved", .null)]),
        ("characters", .obj
          [("playerCharacters", .arr [] []),
           ("npcs", .arr
              [.obj [("id", .str "s1"), ("name", .str "Sildar Hallwinter")],
               .obj [("id", .str "s2"), ("name", .str "Gundren Rockseeker")]]
              []),
           ("relationships", .arr
              [.obj [("id", .str "r1"), ("source", .str "s1"),
                     ("target", .str "s2"), ("type", .str "ally")]] [])])]

/-- C7 — The Character Manager's `_deleteCharacter` filters
relationships on `rel.character1Id`/`rel.character2Id`, but the store's
seed data names the endpoints `source`/`target`; on seed-shaped data the
filter therefore matches nothing and no relationship is removed.
Deleting Sildar (`"s1"`) removes him from `characters.npcs`, yet the
relationship whose `source` is `"s1"` is still present afterwards —
contradicting both the claim and the code's own comment ("Also remove
any relationships involving this character"). -/
theorem c7_delete_character_misses_seed_relationships :
    (deleteCharacter seedShapedState (.str "s1") "T0").map (fun s =>
      (getNestedValue s "characters.npcs",
       getNestedValue s "characters.relationships")) =
      some
        (.arr [.obj [("id", .str "s2"), ("name", .str "Gundren Rockseeker")]]
           [],
         .arr [.obj [("id", .str "r1"), ("source", .str "s1"),
               ("target", .str "s2"), ("type", .str "ally")]] []) ∧
    getProp (.obj [("id", .str "r1"), ("source", .str "s1"),
      ("target", .str "s2"), ("type", .str "ally")]) "source" = .str "s1" :=
  ⟨rfl, rfl⟩

end DmHud
